import Mathlib

/-!
# Verification of the multi-agent orchestrator core

A shallow embedding of the workflow-orchestration core of the repository
(`MultiAgentOrchestrator`): the task-graph executor (`executeWorkflow`),
the per-task agent invoker (`callAIAPI` / the dispatch–settle phases of
`executeSingleTask`), the remote-job polling monitor (`monitorDeployment`),
the pull-request lifecycle (`executeGitHubWorkflow`), and the free-text
parser `parseCodeChanges`.

External collaborators (the completion endpoint, the source-hosting REST
API, the wall clock) are modelled as oracle parameters.  JavaScript's
cooperative concurrency is modelled deterministically up to a scheduling
parameter: inside one ready batch all tasks dispatch synchronously (in
batch order) before any settles, and the settlement order is an arbitrary
permutation of the batch chosen by a schedule oracle.  Fallible code is
modelled with `Except`/`Option`; a `catch` becomes a `match` on the
`Except`.
-/

namespace Orchestrator

/-- The `AgentRole` union type from `types/index.ts`. -/
inductive AgentRole
  | pm | developer | designer | analyst | researcher | writer | translator
  deriving DecidableEq, Repr

/-- Metadata attached to a task result (`AgentTaskResult.metadata`). -/
structure AgentMetadata where
  tokensUsed : Option Nat := none
  processingTime : Option Nat := none
  model : Option String := none
  deriving DecidableEq, Repr

/-- The `AgentTaskResult` record of the orchestrator. -/
structure AgentTaskResult where
  success : Bool
  content : String
  error : Option String := none
  metadata : Option AgentMetadata := none
  deriving DecidableEq, Repr

/-- The `AgentTask` record of the orchestrator. -/
structure AgentTask where
  id : String
  agentId : String
  agentRole : AgentRole
  description : String
  dependencies : List String
  context : Option String := none
  expectedOutput : Option String := none
  deriving DecidableEq, Repr

/-- Progress event statuses (`WorkflowProgress.status`). -/
inductive PStatus
  | pending | running | completed | failed
  deriving DecidableEq, Repr

/-- A `WorkflowProgress` event as emitted through the progress callbacks. -/
structure WorkflowProgress where
  workflowId : String
  stepId : String
  agentId : String
  status : PStatus
  progress : Nat
  message : String
  result : Option String := none
  deriving DecidableEq, Repr

/-- `CodeChange.action` from `types/index.ts`. -/
inductive ChangeAction
  | create | update | delete
  deriving DecidableEq, Repr

/-- The `CodeChange` record from `types/index.ts`. -/
structure CodeChange where
  path : String
  content : String
  action : ChangeAction
  deriving DecidableEq, Repr

/-! ## String helpers shared by the free-text parsers

JavaScript's regexes and `trim` are modelled character-exactly (over the
ASCII fragments the source uses).  `\w` is `[A-Za-z0-9_]`; `\s` is modelled
by the ASCII whitespace characters. -/

/-- JS `\w`: ASCII letters, digits and underscore. -/
def isWordChar (c : Char) : Bool :=
  ('a' ≤ c && c ≤ 'z') || ('A' ≤ c && c ≤ 'Z') || ('0' ≤ c && c ≤ '9') || c = '_'

/-- JS `\s` restricted to the ASCII whitespace characters. -/
def isSpaceChar (c : Char) : Bool :=
  c = ' ' || c = '\t' || c = '\n' || c = '\r' || c = '\x0b' || c = '\x0c'

/-- JS `String.prototype.trim` on a character list. -/
def jsTrim (l : List Char) : List Char :=
  ((l.dropWhile isSpaceChar).reverse.dropWhile isSpaceChar).reverse

/-! ## `parseCodeChanges`

The source splits the payload on the regex ```` /```\w*\n?/ ````, drops the
empty pieces (`filter(Boolean)`), walks the pieces two at a time as
(header, code) pairs, extracts a file path from the header with two
regexes, and emits an `update` `CodeChange` per pair whose header yields a
path. -/

/-- Scanner state for the split on ```` /```\w*\n?/ ````: `copy pend acc`
copies text into the current piece (`acc`, reversed) with `pend` (0, 1 or 2)
backticks seen but not yet resolved into a separator; `fence` skips the
greedy word-character run (a language tag) after three backticks, plus an
optional single newline. -/
inductive SMode where
  | copy (pend : Nat) (acc : List Char)
  | fence
  deriving Repr

/-- One pass of `content.split(/```\w*\n?/)`: scan left to right; at an
occurrence of three backticks cut the accumulated piece and consume a
greedy run of word characters and an optional newline.  Fewer than three
consecutive backticks are literal text. -/
def splitFenceAux : List Char → SMode → List (List Char)
  | [], .copy pend acc => [acc.reverse ++ List.replicate pend '`']
  | [], .fence => [[]]
  | c :: rest, .copy pend acc =>
    if c = '`' then
      if pend = 2 then acc.reverse :: splitFenceAux rest .fence
      else splitFenceAux rest (.copy (pend + 1) acc)
    else
      splitFenceAux rest (.copy 0 (c :: (List.replicate pend '`' ++ acc)))
  | c :: rest, .fence =>
    if isWordChar c then splitFenceAux rest .fence
    else if c = '\n' then splitFenceAux rest (.copy 0 [])
    else if c = '`' then splitFenceAux rest (.copy 1 [])
    else splitFenceAux rest (.copy 0 [c])

/-- JS `content.split(/```\w*\n?/).filter(Boolean)`. -/
def splitFenceBlocks (content : List Char) : List (List Char) :=
  (splitFenceAux content (.copy 0 [])).filter (fun b => !b.isEmpty)

/-- The header/code pairing of the `for (i; i += 2)` loop: pieces are taken
two at a time; a trailing unpaired header is skipped. -/
def pairBlocks : List (List Char) → List (List Char × List Char)
  | h :: c :: rest => (h, c) :: pairBlocks rest
  | _ => []

/-- Case-sensitive literal test at the head of the input. -/
def startsWithLit : List Char → List Char → Bool
  | [], _ => true
  | _ :: _, [] => false
  | p :: ps, c :: cs => (c = p) && startsWithLit ps cs

/-- Case-insensitive literal test against a lowercase pattern at the head
of the input, as done by a `/i` regex on an ASCII keyword. -/
def ciStartsWith (pat : List Char) (l : List Char) : Bool :=
  match pat, l with
  | [], _ => true
  | _ :: _, [] => false
  | p :: ps, c :: cs => (c.toLower = p) && ciStartsWith ps cs

/-- After a matched keyword of regex 1, match `[:\s]*([^\n]+)` with the
greedy backtracking of the JS engine and return the capture group. -/
def captureAfterKeyword (rest : List Char) : Option (List Char) :=
  let tail := rest.dropWhile (fun c => c = ':' || isSpaceChar c)
  match tail with
  | _ :: _ => some (tail.takeWhile (· ≠ '\n'))
  | [] =>
    -- the whole remainder is `[:\s]*`; backtrack to the last non-newline
    -- character, which `[^\n]+` then consumes alone
    let run := rest.takeWhile (fun c => c = ':' || isSpaceChar c)
    match run.reverse.dropWhile (· = '\n') with
    | c :: _ => some [c]
    | [] => none

/-- Regex 1 of the header scan,
`/(?:文件路径|File|Path)[:\s]*([^\n]+)/i`: leftmost occurrence of one of
the three keywords (tried in alternation order) whose continuation admits
the `[:\s]*([^\n]+)` suffix; returns the capture group. -/
def matchKeywordPath : List Char → Option (List Char)
  | [] => none
  | c :: rest =>
    let l := c :: rest
    if ciStartsWith "文件路径".data l then
      match captureAfterKeyword (l.drop 4) with
      | some cap => some cap
      | none => matchKeywordPath rest
    else if ciStartsWith "file".data l then
      match captureAfterKeyword (l.drop 4) with
      | some cap => some cap
      | none => matchKeywordPath rest
    else if ciStartsWith "path".data l then
      match captureAfterKeyword (l.drop 4) with
      | some cap => some cap
      | none => matchKeywordPath rest
    else
      matchKeywordPath rest

/-- The character class of regex 2: word characters, dash and slash. -/
def isPathChar (c : Char) : Bool :=
  isWordChar c || c = '-' || c = '/'

/-- Regex 2 of the header scan (word/dash/slash run, a dot, a word run):
leftmost position where a maximal run of path characters is followed by a
dot and at least one word character; the match is the run, the dot and the
greedy word run. -/
def matchFileToken : List Char → Option (List Char)
  | [] => none
  | c :: rest =>
    let l := c :: rest
    if isPathChar c then
      let a := l.takeWhile isPathChar
      match l.drop a.length with
      | '.' :: l2 =>
        let b := l2.takeWhile isWordChar
        if b.isEmpty then matchFileToken rest else some (a ++ '.' :: b)
      | _ => matchFileToken rest
    else
      matchFileToken rest

/-- `header.match(regex1) || header.match(regex2)`, yielding the path
capture used by `parseCodeChanges`. -/
def extractPath (header : List Char) : Option (List Char) :=
  match matchKeywordPath header with
  | some cap => some cap
  | none => matchFileToken header

/-- `MultiAgentOrchestrator.parseCodeChanges`: split on fences, pair the
nonempty pieces, and for each (header, code) pair whose header yields a
path hint emit an `update` change with the trimmed path and code. -/
def parseCodeChanges (content : String) : List CodeChange :=
  (pairBlocks (splitFenceBlocks content.data)).filterMap fun hc =>
    match extractPath hc.1 with
    | some cap =>
      some { path := (jsTrim cap).asString
             content := (jsTrim hc.2).asString
             action := ChangeAction.update }
    | none => none

/-! ## The agent invoker: `callAIAPI`

`callAIAPI` performs one `fetch('/api/ai')`.  The transport is an oracle
mapping the request to one of three outcomes: the fetch (or body parsing)
throws, the response is not ok and carries an error payload, or the
response is ok and parses into an `AgentTaskResult`.  The `try` body is
`callAIAPIBody` (which can throw, i.e. return `.error`); `callAIAPI`
itself is the surrounding `catch`, which converts any thrown error into a
`{success: false, content: '', error}` result. -/

/-- The request record sent to `/api/ai`. -/
structure AIRequest where
  agentRole : AgentRole
  agentName : String
  taskDescription : String
  context : Option String := none
  previousResults : Option (List String) := none
  deriving DecidableEq, Repr

/-- Outcome of the `fetch('/api/ai')` call, as seen by `callAIAPI`. -/
inductive FetchOutcome where
  /-- the fetch or a body read threw -/
  | throws (msg : String)
  /-- `response.ok` is false; the error payload's `error` field, if any -/
  | notOk (errField : Option String)
  /-- `response.ok` with a parsed `AgentTaskResult` body -/
  | ok (result : AgentTaskResult)
  deriving DecidableEq, Repr

/-- Whether the outcome is a transport error or a non-ok response. -/
def FetchOutcome.isFailure : FetchOutcome → Bool
  | .throws _ => true
  | .notOk _ => true
  | .ok _ => false

/-- The `try` body of `callAIAPI`: on a non-ok response it throws
`error.error || 'AI API request failed'`; on an ok response it returns the
parsed result. -/
def callAIAPIBody (transport : AIRequest → FetchOutcome) (req : AIRequest) :
    Except String AgentTaskResult :=
  match transport req with
  | .throws msg => .error msg
  | .notOk errField =>
    .error (match errField with
            | some e => if e = "" then "AI API request failed" else e
            | none => "AI API request failed")
  | .ok r => .ok r

/-- `MultiAgentOrchestrator.callAIAPI`: the `try`/`catch` wrapper.  A
thrown error is caught and turned into a failed result carrying the error
message; no exception escapes. -/
def callAIAPI (transport : AIRequest → FetchOutcome) (req : AIRequest) :
    AgentTaskResult :=
  match callAIAPIBody transport req with
  | .ok r => r
  | .error msg => { success := false, content := "", error := some msg }

/-! ## The task-graph executor: `executeWorkflow`

State: a result map (association list, insertion-ordered like a JS `Map`),
the `completedTasks` set (insertion-ordered list, like a JS `Set`), and
the emitted progress-event trace.

Concurrency model: each iteration of the `while` loop computes the ready
batch, removes it from `pending`, dispatches every ready task
synchronously in batch order (the synchronous prefix of each async task
body: the `running` event and the request built from the dispatch-time
result map), and then the batch settles in an arbitrary order chosen by
the schedule oracle; each settlement appends the task's terminal event,
stores its result, adds it to `completedTasks`, and emits the aggregate
`workflow` progress event. -/

/-- JS `Map.get` on an insertion-ordered association list. -/
def lookup (l : List (String × AgentTaskResult)) (k : String) :
    Option AgentTaskResult :=
  (l.find? (fun p => p.1 == k)).map Prod.snd

/-- JS `Map.set`: replace the value if the key is present (keeping its
position), else append the binding. -/
def setEntry (l : List (String × AgentTaskResult)) (k : String)
    (v : AgentTaskResult) : List (String × AgentTaskResult) :=
  if (l.find? (fun p => p.1 == k)).isSome then
    l.map (fun p => if p.1 == k then (k, v) else p)
  else
    l ++ [(k, v)]

/-- The `previousResultsArray` built at dispatch inside
`executeSingleTask`: the contents of the successful dependency results, in
dependency-list order. -/
def prevResultsArray (results : List (String × AgentTaskResult))
    (deps : List String) : List String :=
  deps.filterMap fun depId =>
    match lookup results depId with
    | some r => if r.success then some r.content else none
    | none => none

/-- The request `executeSingleTask` sends to `callAIAPI` for a task, given
the previous-results context built at dispatch. -/
def mkRequest (t : AgentTask) (prevs : List String) : AIRequest :=
  { agentRole := t.agentRole
    agentName := t.agentId
    taskDescription := t.description
    context := t.context
    previousResults := if prevs.length > 0 then some prevs else none }

/-- The settled result of one task invocation: `callAIAPI` applied to the
task's request.  (`executeSingleTask`'s own `catch` is dead code in the
model because `callAIAPI` never throws.) -/
def apiOf (transport : AIRequest → FetchOutcome) (t : AgentTask)
    (prevs : List String) : AgentTaskResult :=
  callAIAPI transport (mkRequest t prevs)

/-- JS `Math.round(((k : Nat) / n) * 100)` (round half away from zero on a
nonnegative value). -/
def roundPct (k n : Nat) : Nat :=
  (200 * k + n) / (2 * n)

/-- The `running` event emitted synchronously at the start of
`executeSingleTask`. -/
def dispatchEvent (wid : String) (t : AgentTask) : WorkflowProgress :=
  { workflowId := wid, stepId := t.id, agentId := t.agentId
    status := .running, progress := 0
    message := t.agentId ++ " 开始执行任务: " ++ t.description }

/-- The terminal event emitted by `executeSingleTask` when the invocation
result arrives. -/
def taskEndEvent (wid : String) (t : AgentTask) (r : AgentTaskResult) :
    WorkflowProgress :=
  { workflowId := wid, stepId := t.id, agentId := t.agentId
    status := if r.success then .completed else .failed
    progress := 100
    message := if r.success then t.agentId ++ " 完成任务"
               else t.agentId ++ " 任务失败: " ++ r.error.getD "undefined"
    result := if r.success then some r.content else none }

/-- The aggregate `workflow` progress event emitted after a settlement has
been stored, with `completedCount` the new size of `completedTasks`. -/
def wfProgressEvent (wid agentId : String) (completedCount total : Nat) :
    WorkflowProgress :=
  { workflowId := wid, stepId := "workflow", agentId := agentId
    status := .running, progress := roundPct completedCount total
    message := "任务进度: " ++ toString completedCount ++ "/" ++
               toString total ++ " (" ++
               toString (roundPct completedCount total) ++ "%)" }

/-- Executor state: result map, `completedTasks`, emitted trace. -/
structure ExecState where
  results : List (String × AgentTaskResult)
  completed : List String
  trace : List WorkflowProgress
  deriving Repr

/-- One settlement: emit the task's terminal event, store the result, add
the id to `completedTasks`, and emit the aggregate progress event. -/
def settleTask (wid : String) (total : Nat) (s : ExecState) (t : AgentTask)
    (r : AgentTaskResult) : ExecState :=
  let completed' := if t.id ∈ s.completed then s.completed
                    else s.completed ++ [t.id]
  { results := setEntry s.results t.id r
    completed := completed'
    trace := s.trace ++ [taskEndEvent wid t r,
                         wfProgressEvent wid t.agentId completed'.length total] }

/-- Settle the batch in the scheduled order.  `api0` is each task's
invocation result, fixed at dispatch time. -/
def settleFold (wid : String) (total : Nat) (api0 : AgentTask → AgentTaskResult) :
    List AgentTask → ExecState → ExecState
  | [], s => s
  | t :: rest, s => settleFold wid total api0 rest (settleTask wid total s t (api0 t))

/-- Insertion of a task into a key-sorted list (schedule realisation). -/
def insertByKey (key : AgentTask → Nat) (t : AgentTask) :
    List AgentTask → List AgentTask
  | [] => [t]
  | u :: rest => if key t ≤ key u then t :: u :: rest
                 else u :: insertByKey key t rest

/-- Reorder a ready batch by a schedule key; any settlement interleaving
of the batch is realised by some key. -/
def orderByKey (key : AgentTask → Nat) : List AgentTask → List AgentTask
  | [] => []
  | t :: rest => insertByKey key t (orderByKey key rest)

/-- `areDependenciesMet`: every dependency id is in `completedTasks`. -/
def depsMet (completed : List String) (t : AgentTask) : Bool :=
  t.dependencies.all (fun depId => completed.contains depId)

/-- One `executeBatch` call: dispatch the ready tasks synchronously in
batch order (emitting their `running` events and snapshotting the result
map for their requests), then settle them in the scheduled order. -/
def runBatch (transport : AIRequest → FetchOutcome) (wid : String)
    (total : Nat) (ready order : List AgentTask) (s : ExecState) : ExecState :=
  let api0 := fun t => apiOf transport t (prevResultsArray s.results t.dependencies)
  settleFold wid total api0 order
    { s with trace := s.trace ++ ready.map (dispatchEvent wid) }

/-- The failed result stored for tasks stuck behind an unmet or cyclic
dependency. -/
def depFailResult : AgentTaskResult :=
  { success := false, content := "", error := some "依赖任务未完成或存在循环依赖" }

/-- The per-task `failed` event emitted by the stall branch. -/
def stallEvent (wid : String) (t : AgentTask) : WorkflowProgress :=
  { workflowId := wid, stepId := t.id, agentId := t.agentId
    status := .failed, progress := 0
    message := t.agentId ++ " 无法执行: 依赖未满足" }

/-- The stall branch: every remaining pending task is deterministically
failed with the dependency error and a `failed` event. -/
def stallFail (wid : String) : List AgentTask → ExecState → ExecState
  | [], s => s
  | t :: rest, s =>
    stallFail wid rest
      { results := setEntry s.results t.id depFailResult
        completed := s.completed
        trace := s.trace ++ [stallEvent wid t] }

/-- The initial aggregate event of `executeWorkflow`. -/
def initialEvent (wid : String) : WorkflowProgress :=
  { workflowId := wid, stepId := "workflow", agentId := "system"
    status := .running, progress := 0, message := "工作流开始执行" }

/-- The final aggregate event of `executeWorkflow`. -/
def finalEvent (wid : String) : WorkflowProgress :=
  { workflowId := wid, stepId := "workflow", agentId := "system"
    status := .completed, progress := 100, message := "工作流执行完成" }

/-- The `while (pendingTasks.size > 0)` loop of `executeWorkflow`: run a
batch; if no task completed in a full iteration while tasks remain
pending, fail every remaining task (stall branch) and stop.  `i` is the
iteration index, consumed by the schedule oracle.  `fuel` is a structural
bound on the number of iterations; every recursive call strictly shrinks
`pending`, so any `fuel > pending.length` is enough and the `fuel = 0`
base case is unreachable (`execLoop_fuel_irrelevant`). -/
def execLoop (transport : AIRequest → FetchOutcome)
    (sched : Nat → AgentTask → Nat) (wid : String) (total : Nat) :
    Nat → List AgentTask → Nat → ExecState → ExecState
  | 0, _, _, s => s
  | fuel + 1, pending, i, s =>
    if pending = [] then s
    else
      let ready := pending.filter (fun t => depsMet s.completed t)
      let pending' := pending.filter (fun t => !(depsMet s.completed t))
      let s' := runBatch transport wid total ready (orderByKey (sched i) ready) s
      if s'.completed.length = s.completed.length ∧ pending' ≠ [] then
        stallFail wid pending' s'
      else if pending' = [] then s'
      else execLoop transport sched wid total fuel pending' (i + 1) s'

/-- `MultiAgentOrchestrator.executeWorkflow`: initial aggregate event, the
batch loop, final aggregate event; returns the result map and the trace. -/
def executeWorkflow (transport : AIRequest → FetchOutcome)
    (sched : Nat → AgentTask → Nat) (wid : String) (tasks : List AgentTask) :
    List (String × AgentTaskResult) × List WorkflowProgress :=
  let s0 : ExecState := ⟨[], [], [initialEvent wid]⟩
  let s1 := execLoop transport sched wid tasks.length (tasks.length + 1) tasks 0 s0
  (s1.results, s1.trace ++ [finalEvent wid])

/-! ## Reference fixpoint: the well-founded part of the dependency graph

Independently of the executor's batch loop, the ids of the tasks that can
ever become ready are the least fixpoint of "all dependencies done",
reached within `tasks.length` iterations.  A graph is acyclic (in the
sense relevant to the executor: no task is stuck behind a cycle) exactly
when the fixpoint covers every task id. -/

/-- One step of the fixpoint: add every task whose dependencies are all
already in the set. -/
def closureStep (tasks : List AgentTask) (s : List String) : List String :=
  s ++ (tasks.filter
    (fun t => !(s.contains t.id) && t.dependencies.all (fun d => s.contains d))).map
      AgentTask.id

/-- `k` iterations of `closureStep` from the empty set. -/
def closureN (tasks : List AgentTask) : Nat → List String
  | 0 => []
  | k + 1 => closureStep tasks (closureN tasks k)

/-- The least fixpoint: ids of tasks not stuck behind an unmet or cyclic
dependency. -/
def closure (tasks : List AgentTask) : List String :=
  closureN tasks tasks.length

/-- Task ids are pairwise distinct (the data model's uniqueness
invariant). -/
def idsNodup (tasks : List AgentTask) : Prop :=
  (tasks.map AgentTask.id).Nodup

/-- Every dependency id names a task of the graph. -/
def depsClosed (tasks : List AgentTask) : Prop :=
  ∀ t ∈ tasks, ∀ d ∈ t.dependencies, d ∈ tasks.map AgentTask.id

/-- No task id collides with the aggregate-progress sentinel step id. -/
def noSentinelId (tasks : List AgentTask) : Prop :=
  ∀ t ∈ tasks, t.id ≠ "workflow"

/-- Acyclicity as the executor observes it: every task is in the
well-founded part of the dependency relation. -/
def acyclicGraph (tasks : List AgentTask) : Prop :=
  ∀ t ∈ tasks, t.id ∈ closure tasks

instance (tasks : List AgentTask) : Decidable (idsNodup tasks) := by
  unfold idsNodup; infer_instance

instance (tasks : List AgentTask) : Decidable (depsClosed tasks) := by
  unfold depsClosed; infer_instance

instance (tasks : List AgentTask) : Decidable (noSentinelId tasks) := by
  unfold noSentinelId; infer_instance

instance (tasks : List AgentTask) : Decidable (acyclicGraph tasks) := by
  unfold acyclicGraph; infer_instance

/-- The progress values of the aggregate (`stepId = "workflow"`) events of
a trace, in emission order. -/
def wfProgressValues (tr : List WorkflowProgress) : List Nat :=
  (tr.filter (fun e => e.stepId == "workflow")).map WorkflowProgress.progress

/-! ## The remote job monitor: `monitorDeployment`

The monitor polls `listWorkflowRuns` up to `Math.ceil(timeout / 10000)`
times.  The listing endpoint is an oracle from the (1-based) poll number
to an outcome; the wall clock is an oracle from the poll number to
`Date.now()`.  ISO `created_at` timestamps compare like the underlying
instants, so they are modelled as naturals.  A thrown timeout error is the
`.error` branch of the returned `Except`. -/

/-- A workflow run as returned by the listing endpoint
(`GitHubWorkflowRun` from `types/index.ts`). -/
structure GitHubWorkflowRun where
  id : Nat
  name : String
  status : String
  conclusion : Option String
  html_url : String
  created_at : Nat
  deriving DecidableEq, Repr

/-- Outcome of one `fetch('/api/github', {action: 'listWorkflowRuns'})`. -/
inductive PollOutcome where
  | throws (msg : String)
  | notOk
  | ok (runs : List GitHubWorkflowRun)
  deriving Repr

/-- `DeploymentResult` from `types/index.ts`. -/
structure DeploymentResult where
  success : Bool
  workflowRunId : Option Nat := none
  workflowUrl : Option String := none
  status : String
  merged : Bool
  mergedAt : Option String := none
  duration : Option Nat := none
  pullRequestUrl : Option String := none
  deriving DecidableEq, Repr

/-- JS `Math.round(a / b)` on nonnegative values. -/
def roundDiv (a b : Nat) : Nat :=
  (2 * a + b) / (2 * b)

/-- The progress event emitted when a poll surfaces a matching run. -/
def monitorEvent (wid : String) (run : GitHubWorkflowRun)
    (pollCount maxPolls : Nat) : WorkflowProgress :=
  { workflowId := wid, stepId := "monitor-deployment", agentId := "system"
    status := .running
    progress := min (85 + pollCount * 10 / maxPolls) 95
    message := "🔄 Workflow " ++ run.name ++ ": " ++ run.status
    result := some run.html_url }

/-- The polling loop of `monitorDeployment`.  `remaining` counts the polls
left (`maxPolls - pollCount`); a poll that throws is caught and the loop
sleeps and continues.  A matching run is the first with id above
`lastRunId` (0 when unset) created at or after the start instant.  When
the runs are exhausted the loop exits and the timeout error is thrown. -/
def monitorLoop (polls : Nat → PollOutcome) (clock : Nat → Nat)
    (startTime : Nat) (maxPolls : Nat) (wid : String) :
    Nat → Nat → Option Nat → List WorkflowProgress →
    Except String DeploymentResult × List WorkflowProgress
  | 0, _, _, tr => (.error "Deployment monitoring timeout", tr)
  | remaining + 1, pollCount, lastRunId, tr =>
    let pc := pollCount + 1
    match polls pc with
    | .throws _ => monitorLoop polls clock startTime maxPolls wid remaining pc lastRunId tr
    | .notOk => monitorLoop polls clock startTime maxPolls wid remaining pc lastRunId tr
    | .ok runs =>
      match runs.find? (fun r =>
          decide (lastRunId.getD 0 < r.id) && decide (startTime ≤ r.created_at)) with
      | none => monitorLoop polls clock startTime maxPolls wid remaining pc lastRunId tr
      | some run =>
        let tr' := tr ++ [monitorEvent wid run pc maxPolls]
        if run.status = "completed" ∧ run.conclusion = some "success" then
          (.ok { success := true
                 workflowRunId := some run.id
                 workflowUrl := some run.html_url
                 status := "success"
                 merged := false
                 duration := some (roundDiv (clock pc - startTime) 1000) }, tr')
        else if run.status = "failure" ∨ run.conclusion = some "failure" then
          (.ok { success := false
                 workflowRunId := some run.id
                 workflowUrl := some run.html_url
                 status := run.conclusion.getD "failure"
                 merged := false }, tr')
        else
          monitorLoop polls clock startTime maxPolls wid remaining pc (some run.id) tr'

/-- `MultiAgentOrchestrator.monitorDeployment`: poll the CI listing every
10 s until a matching run is terminal or `Math.ceil(timeout / 10000)`
polls have elapsed, then throw the timeout error. -/
def monitorDeployment (polls : Nat → PollOutcome) (clock : Nat → Nat)
    (startTime : Nat) (wid : String) (timeout : Nat := 15 * 60 * 1000) :
    Except String DeploymentResult × List WorkflowProgress :=
  let maxPolls := (timeout + 10000 - 1) / 10000
  monitorLoop polls clock startTime maxPolls wid maxPolls 0 none []

/-! ## The pull-request lifecycle: `executeGitHubWorkflow`

Every `fetch('/api/github')` call is an oracle returning throw / not-ok /
ok-with-payload.  A log of the repository-API actions performed is
returned alongside the result and the progress trace, so that "no merge
was attempted" is a statement about the run. -/

/-- Outcome of one repository-API call. -/
inductive GHResp (α : Type) where
  | throws (msg : String)
  | notOk
  | ok (val : α)

/-- A repository-API action, as recorded in the call log. -/
inductive GHCall where
  | getRepositoryFiles
  | createBranch
  | commit (path : String)
  | createPR
  | mergePR
  deriving DecidableEq, Repr

/-- The structured result of `executeGitHubWorkflow`. -/
structure GitHubWorkflowResult where
  success : Bool
  changes : List CodeChange
  pullRequestUrl : Option String := none
  summary : String
  deploymentResult : Option DeploymentResult := none
  deriving DecidableEq, Repr

/-- The external world of one `executeGitHubWorkflow` run. -/
structure GitHubEnv where
  /-- completion-endpoint oracle for the task graph -/
  transport : AIRequest → FetchOutcome
  /-- batch settlement schedule of the task graph -/
  sched : Nat → AgentTask → Nat
  /-- `isGitHubReady()`: a GitHub config with a token is set -/
  hasConfig : Bool
  /-- `Date.now()` used for the workflow id -/
  widTs : Nat
  /-- `Date.now()` used for the branch name -/
  branchTs : Nat
  /-- outcome of `getRepositoryFiles` (ok: path/content pairs) -/
  fetchFiles : GHResp (List (String × String))
  /-- outcome of `createBranch` -/
  createBranch : GHResp Unit
  /-- outcome of the i-th `commit` call -/
  commitFile : Nat → GHResp Unit
  /-- outcome of `createPR` (ok: pull-request number and url) -/
  createPR : GHResp (Nat × String)
  /-- CI listing oracle for the deployment monitor -/
  polls : Nat → PollOutcome
  /-- wall clock for the deployment monitor -/
  clock : Nat → Nat
  /-- `Date.now()` at monitor entry -/
  monitorStart : Nat
  /-- outcome of `mergePR` (ok: the `merge.merged` flag) -/
  mergePR : GHResp Bool
  /-- `new Date().toISOString()` at merge time -/
  mergedAtISO : String

/-- The workflow id of one `executeGitHubWorkflow` run. -/
def ghWorkflowId (env : GitHubEnv) : String :=
  "github-" ++ toString env.widTs

/-- The branch name of one `executeGitHubWorkflow` run. -/
def ghBranchName (env : GitHubEnv) : String :=
  "ai-update-" ++ toString env.branchTs

/-- Leftmost match of the repository-URL regex (literal `github.com/`,
then two nonempty slash-free captures separated by a slash). -/
def matchRepoUrl : List Char → Option (List Char × List Char)
  | [] => none
  | c :: rest =>
    let l := c :: rest
    if startsWithLit "github.com/".data l then
      let after := l.drop 11
      let a := after.takeWhile (· ≠ '/')
      if a.isEmpty then matchRepoUrl rest
      else
        match after.drop a.length with
        | '/' :: tail2 =>
          let b := tail2.takeWhile (· ≠ '/')
          if b.isEmpty then matchRepoUrl rest else some (a, b)
        | _ => matchRepoUrl rest
    else matchRepoUrl rest

/-- JS `repo.replace('.git', '')`: remove the first occurrence. -/
def replaceFirstDotGit : List Char → List Char
  | [] => []
  | c :: rest =>
    if startsWithLit ".git".data (c :: rest) then rest.drop 3
    else c :: replaceFirstDotGit rest

/-- The mock change list used as fallback. -/
def getMockChanges : List CodeChange :=
  [{ path := "README.md"
     content := "# Updated Project\n\nThis project has been modified by AI agents."
     action := ChangeAction.update }]

/-- `results.get('develop')?.success || false`. -/
def developSuccess (results : List (String × AgentTaskResult)) : Bool :=
  ((lookup results "develop").map AgentTaskResult.success).getD false

/-- `results.get('review')?.content || dflt`. -/
def summaryOr (results : List (String × AgentTaskResult)) (dflt : String) : String :=
  match lookup results "review" with
  | some r => if r.content = "" then dflt else r.content
  | none => dflt

/-- The analyze → develop → review task graph built by
`executeGitHubWorkflow`. -/
def ghTasks (repoUrl requirements : String) (repoInfo : String × String)
    (files : List (String × String)) : List AgentTask :=
  [{ id := "analyze", agentId := "analyst-1", agentRole := .analyst
     description := "Analyze GitHub repository " ++ repoInfo.1 ++ "/" ++
       repoInfo.2 ++ " structure. Based on requirements \"" ++ requirements ++
       "\", identify key files and code locations that need modification."
     dependencies := []
     context := some ("Repository URL: " ++ repoUrl ++ "\nRequirements: " ++
       requirements ++
       (if files.length > 0 then
          "\n\nExisting files:\n" ++
            String.intercalate "\n" ((files.take 10).map (fun f => "- " ++ f.1))
        else "")) },
   { id := "develop", agentId := "dev-1", agentRole := .developer
     description := "Based on analysis, write code modifications for repository " ++
       repoInfo.1 ++ "/" ++ repoInfo.2 ++ ". Implement requirements: \"" ++
       requirements ++ "\". Provide complete file contents."
     dependencies := ["analyze"]
     context := some ("Repository: " ++ repoUrl ++
       (if files.length > 0 then
          "\n\nReference existing files:\n" ++
            String.intercalate "\n" ((files.take 5).map
              (fun f => "\n=== " ++ f.1 ++ " ===\n" ++ f.2.take 1000 ++ "..."))
        else "")) },
   { id := "review", agentId := "pm-1", agentRole := .pm
     description := "Review code changes to ensure requirements \"" ++
       requirements ++ "\" are met. Generate deployment plan summary."
     dependencies := ["develop"]
     context := some "Review completed code modifications" }]

/-- The parsed repository owner/name (`unknown`/`unknown` when the URL
does not match). -/
def ghRepoInfo (repoUrl : String) : String × String :=
  match matchRepoUrl repoUrl.data with
  | some ab => (ab.1.asString, (replaceFirstDotGit ab.2).asString)
  | none => ("unknown", "unknown")

/-- The `existingFiles` visible to the task graph: the fetched files when
a GitHub config is present and the listing call returned ok, else none. -/
def ghFetchedFiles (env : GitHubEnv) : List (String × String) :=
  if env.hasConfig then
    match env.fetchFiles with
    | .ok files => files
    | _ => []
  else []

/-- The task-graph result map of one `executeGitHubWorkflow` run. -/
def ghResults (env : GitHubEnv) (repoUrl requirements : String) :
    List (String × AgentTaskResult) :=
  (executeWorkflow env.transport env.sched (ghWorkflowId env)
    (ghTasks repoUrl requirements (ghRepoInfo repoUrl) (ghFetchedFiles env))).1

/-- The code changes parsed from the develop-stage payload of one
`executeGitHubWorkflow` run. -/
def ghChanges (env : GitHubEnv) (repoUrl requirements : String) :
    List CodeChange :=
  parseCodeChanges
    (((lookup (ghResults env repoUrl requirements) "develop").map
      AgentTaskResult.content).getD "")

/-- The sequential commit loop: one `commit` call per change, in list
order; a non-ok response throws `Failed to commit file: <path>`. -/
def commitLoop (env : GitHubEnv) (wid : String) (total : Nat) :
    List CodeChange → Nat → List WorkflowProgress → List GHCall →
    Except (String × List WorkflowProgress × List GHCall)
      (List WorkflowProgress × List GHCall)
  | [], _, tr, cs => .ok (tr, cs)
  | ch :: rest, i, tr, cs =>
    let p := roundDiv (45 * total + 35 * (i + 1)) total
    let tr1 := tr ++ [{ workflowId := wid, stepId := "commit-file-" ++ toString i
                        agentId := "system", status := .running, progress := p
                        message := "📄 Committing file " ++ toString (i + 1) ++ "/" ++
                          toString total ++ ": " ++ ch.path }]
    let cs1 := cs ++ [GHCall.commit ch.path]
    match env.commitFile i with
    | .throws m => .error (m, tr1, cs1)
    | .notOk => .error ("Failed to commit file: " ++ ch.path, tr1, cs1)
    | .ok _ =>
      commitLoop env wid total rest (i + 1)
        (tr1 ++ [{ workflowId := wid, stepId := "commit-file-" ++ toString i
                   agentId := "system", status := .completed, progress := p
                   message := "✅ Committed: " ++ ch.path }]) cs1

/-- The `try` block of the GitHub phase: create the branch, commit every
change, open the pull request, monitor the deployment and merge.  `.error`
is a thrown error (handled by the outer `catch`); `.ok (some r)` is an
early `return r`; `.ok none` falls through to the bottom return. -/
def ghTryBlock (env : GitHubEnv) (wid branchName : String)
    (results : List (String × AgentTaskResult)) (changes : List CodeChange)
    (tr : List WorkflowProgress) (cs : List GHCall) :
    Except (String × List WorkflowProgress × List GHCall)
      (Option GitHubWorkflowResult × List WorkflowProgress × List GHCall) :=
  let cs0 := cs ++ [GHCall.createBranch]
  match env.createBranch with
  | .throws m => .error (m, tr, cs0)
  | .notOk => .error ("Failed to create branch", tr, cs0)
  | .ok _ =>
    let tr1 := tr ++
      [{ workflowId := wid, stepId := "create-branch", agentId := "system"
         status := .completed, progress := 45
         message := "✅ Branch created: " ++ branchName },
       { workflowId := wid, stepId := "commit-files", agentId := "system"
         status := .running, progress := 45
         message := "📝 Committing " ++ toString changes.length ++ " file(s)..." }]
    match commitLoop env wid changes.length changes 0 tr1 cs0 with
    | .error e => .error e
    | .ok (tr2, cs2) =>
      let tr3 := tr2 ++
        [{ workflowId := wid, stepId := "commit-files", agentId := "system"
           status := .completed, progress := 80
           message := "✅ All " ++ toString changes.length ++ " file(s) committed" },
         { workflowId := wid, stepId := "create-pr", agentId := "system"
           status := .running, progress := 80
           message := "🔀 Creating pull request..." }]
      let cs3 := cs2 ++ [GHCall.createPR]
      match env.createPR with
      | .throws m => .error (m, tr3, cs3)
      | .notOk => .error ("Failed to create pull request", tr3, cs3)
      | .ok numUrl =>
        let num := numUrl.1
        let url := numUrl.2
        let tr4 := tr3 ++
          [{ workflowId := wid, stepId := "create-pr", agentId := "system"
             status := .completed, progress := 85
             message := "✅ Pull request created: #" ++ toString num
             result := some url }]
        if num ≠ 0 then
          let tr5 := tr4 ++
            [{ workflowId := wid, stepId := "monitor-deployment", agentId := "system"
               status := .running, progress := 85
               message := "🚀 Monitoring GitHub Actions deployment..." }]
          match monitorDeployment env.polls env.clock env.monitorStart wid with
          | (.ok dep, mtr) =>
            if dep.success then
              let tr6 := tr5 ++ mtr ++
                [{ workflowId := wid, stepId := "monitor-deployment"
                   agentId := "system", status := .completed, progress := 95
                   message := "✅ Deployment successful (" ++
                     toString (dep.duration.getD 0) ++ "s)"
                   result := dep.workflowUrl },
                 { workflowId := wid, stepId := "merge-pr", agentId := "system"
                   status := .running, progress := 95
                   message := "🔀 Auto-merging pull request..." }]
              let cs4 := cs3 ++ [GHCall.mergePR]
              match env.mergePR with
              | .throws m =>
                -- a merge-fetch throw is caught by the inner catch around
                -- the monitoring block
                .ok (some { success := developSuccess results
                            changes := changes
                            pullRequestUrl := some url
                            summary := summaryOr results "Code modification complete" },
                     tr6 ++ [{ workflowId := wid, stepId := "monitor-deployment"
                               agentId := "system", status := .failed, progress := 95
                               message := "⚠️ Deployment monitoring failed: " ++ m }],
                     cs4)
              | .ok merged =>
                .ok (some { success := developSuccess results
                            changes := if changes.isEmpty then getMockChanges else changes
                            pullRequestUrl := some url
                            summary := summaryOr results "Code modification complete"
                            deploymentResult := some { dep with
                              merged := merged, mergedAt := some env.mergedAtISO } },
                     tr6 ++ [{ workflowId := wid, stepId := "merge-pr"
                               agentId := "system", status := .completed, progress := 100
                               message := "✅ PR merged successfully" }],
                     cs4)
              | .notOk =>
                .ok (some { success := developSuccess results
                            changes := if changes.isEmpty then getMockChanges else changes
                            pullRequestUrl := some url
                            summary := summaryOr results "Code modification complete"
                            deploymentResult := some dep },
                     tr6 ++ [{ workflowId := wid, stepId := "merge-pr"
                               agentId := "system", status := .failed, progress := 95
                               message := "⚠️ Auto-merge failed (manual merge required)" }],
                     cs4)
            else
              .ok (some { success := false
                          changes := changes
                          pullRequestUrl := some url
                          summary := summaryOr results "Code modification complete"
                          deploymentResult := some dep },
                   tr5 ++ mtr ++
                     [{ workflowId := wid, stepId := "monitor-deployment"
                        agentId := "system", status := .failed, progress := 95
                        message := "❌ Deployment failed: " ++ dep.status }],
                   cs3)
          | (.error m, mtr) =>
            -- the monitor threw (timeout): inner catch
            .ok (some { success := developSuccess results
                        changes := changes
                        pullRequestUrl := some url
                        summary := summaryOr results "Code modification complete" },
                 tr5 ++ mtr ++
                   [{ workflowId := wid, stepId := "monitor-deployment"
                      agentId := "system", status := .failed, progress := 95
                      message := "⚠️ Deployment monitoring failed: " ++ m }],
                 cs3)
        else
          .ok (none, tr4, cs3)

/-- `MultiAgentOrchestrator.executeGitHubWorkflow`: fetch context files,
run the analyze/develop/review graph, parse the code changes, and (when a
GitHub config is present and changes were parsed) drive the branch →
commit → pull request → monitor → merge sequence. -/
def executeGitHubWorkflow (env : GitHubEnv) (repoUrl requirements : String) :
    GitHubWorkflowResult × List WorkflowProgress × List GHCall :=
  let wid := ghWorkflowId env
  let canCommit := env.hasConfig
  let branchName := ghBranchName env
  let tr0 : List WorkflowProgress :=
    [{ workflowId := wid, stepId := "fetch-files", agentId := "system"
       status := .running, progress := 5
       message := "📥 Fetching repository files..." }]
  let fetched : List WorkflowProgress × List GHCall :=
    if canCommit then
      match env.fetchFiles with
      | .throws m =>
        (tr0 ++ [{ workflowId := wid, stepId := "fetch-files"
                   agentId := "system", status := .failed, progress := 10
                   message := "⚠️ Failed to fetch files: " ++ m }],
         [GHCall.getRepositoryFiles])
      | .notOk =>
        (tr0 ++ [{ workflowId := wid, stepId := "fetch-files"
                   agentId := "system", status := .completed, progress := 10
                   message := "✅ Fetched 0 files from repository" }],
         [GHCall.getRepositoryFiles])
      | .ok files =>
        (tr0 ++ [{ workflowId := wid, stepId := "fetch-files"
                   agentId := "system", status := .completed, progress := 10
                   message := "✅ Fetched " ++ toString files.length ++
                     " files from repository" }],
         [GHCall.getRepositoryFiles])
    else (tr0, [])
  let results := ghResults env repoUrl requirements
  let changes := ghChanges env repoUrl requirements
  let tr2 := fetched.1 ++
    (executeWorkflow env.transport env.sched wid
      (ghTasks repoUrl requirements (ghRepoInfo repoUrl) (ghFetchedFiles env))).2 ++
    [{ workflowId := wid, stepId := "create-branch", agentId := "system"
       status := .running, progress := 40
       message := "🌿 Creating branch: " ++ branchName }]
  if canCommit ∧ changes ≠ [] then
    match ghTryBlock env wid branchName results changes tr2 fetched.2 with
    | .error etc =>
      ({ success := false, changes := changes
         summary := summaryOr results "Operation failed" },
       etc.2.1 ++ [{ workflowId := wid, stepId := "github-error"
                     agentId := "system", status := .failed, progress := 0
                     message := "❌ GitHub operation failed: " ++ etc.1 }],
       etc.2.2)
    | .ok rtc =>
      match rtc.1 with
      | some result => (result, rtc.2.1, rtc.2.2)
      | none =>
        ({ success := developSuccess results
           changes := if changes.isEmpty then getMockChanges else changes
           summary := summaryOr results "Code modification complete (not committed)" },
         rtc.2.1, rtc.2.2)
  else
    ({ success := developSuccess results
       changes := if changes.isEmpty then getMockChanges else changes
       summary := summaryOr results "Code modification complete (not committed)" },
     tr2, fetched.2)

/-! ## Trace predicates used by the claims -/

/-- A task is dispatched only after every dependency has settled: wherever
a task's `running` dispatch event occurs in the trace, each of its
dependency ids has an earlier terminal (`completed`/`failed`) event, i.e.
a stored result. -/
def DispatchOK (wid : String) (tasks : List AgentTask)
    (tr : List WorkflowProgress) : Prop :=
  ∀ t ∈ tasks, ∀ pre post, tr = pre ++ dispatchEvent wid t :: post →
    ∀ d ∈ t.dependencies,
      ∃ e ∈ pre, e.stepId = d ∧
        (e.status = PStatus.completed ∨ e.status = PStatus.failed)

/-- Invariant of `execLoop` at iteration `i`: `pending` lists the tasks
not yet dispatched; `s.completed` holds exactly the settled ids (equal to
the result-map keys, and to the `i`-th dependency-fixpoint iterate);
settled tasks carry their invocation result computed from the final
values of their dependencies; and the trace satisfies the dispatch and
aggregate-progress disciplines. -/
structure ExecInv (transport : AIRequest → FetchOutcome) (wid : String)
    (tasks : List AgentTask) (i : Nat) (pending : List AgentTask)
    (s : ExecState) : Prop where
  pend_sub : pending.Sublist tasks
  keys_eq : s.results.map Prod.fst = s.completed
  pend_fresh : ∀ t ∈ pending, t.id ∉ s.completed
  cover : ∀ t ∈ tasks, t.id ∈ s.completed ∨ t ∈ pending
  comp_mem : ∀ x ∈ s.completed, x ∈ tasks.map AgentTask.id
  comp_nodup : s.completed.Nodup
  iter_le : i ≤ s.completed.length
  clos_eq : ∀ x, x ∈ s.completed ↔ x ∈ closureN tasks i
  comp_deps : ∀ t ∈ tasks, t.id ∈ s.completed →
    ∀ d ∈ t.dependencies, d ∈ s.completed
  res_char : ∀ t ∈ tasks, t.id ∈ s.completed →
    lookup s.results t.id =
      some (apiOf transport t (prevResultsArray s.results t.dependencies))
  settled_evt : ∀ x ∈ s.completed, ∃ e ∈ s.trace,
    e.stepId = x ∧ (e.status = PStatus.completed ∨ e.status = PStatus.failed)
  disp_evt : ∀ t ∈ tasks, t.id ∈ s.completed → dispatchEvent wid t ∈ s.trace
  disp_ok : DispatchOK wid tasks s.trace
  wf_sorted : (wfProgressValues s.trace).Sorted (· ≤ ·)
  wf_bound : ∀ v ∈ wfProgressValues s.trace,
    v ≤ roundPct s.completed.length tasks.length

/-- Mid-batch invariant of `settleFold`: `rem` are the dispatched but not
yet settled tasks of the current batch; `api0` is their invocation result
fixed at dispatch time. -/
structure BatchInv (transport : AIRequest → FetchOutcome) (wid : String)
    (tasks : List AgentTask) (api0 : AgentTask → AgentTaskResult)
    (rem : List AgentTask) (s : ExecState) : Prop where
  keys_eq : s.results.map Prod.fst = s.completed
  comp_mem : ∀ x ∈ s.completed, x ∈ tasks.map AgentTask.id
  comp_nodup : s.completed.Nodup
  comp_deps : ∀ t ∈ tasks, t.id ∈ s.completed →
    ∀ d ∈ t.dependencies, d ∈ s.completed
  res_char : ∀ t ∈ tasks, t.id ∈ s.completed →
    lookup s.results t.id =
      some (apiOf transport t (prevResultsArray s.results t.dependencies))
  settled_evt : ∀ x ∈ s.completed, ∃ e ∈ s.trace,
    e.stepId = x ∧ (e.status = PStatus.completed ∨ e.status = PStatus.failed)
  disp_evt : ∀ t ∈ tasks, t.id ∈ s.completed → dispatchEvent wid t ∈ s.trace
  disp_ok : DispatchOK wid tasks s.trace
  wf_sorted : (wfProgressValues s.trace).Sorted (· ≤ ·)
  wf_bound : ∀ v ∈ wfProgressValues s.trace,
    v ≤ roundPct s.completed.length tasks.length
  rem_fresh : ∀ t ∈ rem, t.id ∉ s.completed
  rem_tasks : ∀ t ∈ rem, t ∈ tasks
  rem_nodup : (rem.map AgentTask.id).Nodup
  rem_disp : ∀ t ∈ rem, dispatchEvent wid t ∈ s.trace
  rem_deps : ∀ t ∈ rem, ∀ d ∈ t.dependencies, d ∈ s.completed
  rem_api : ∀ t ∈ rem,
    api0 t = apiOf transport t (prevResultsArray s.results t.dependencies)

/-- What holds of the state returned by the executor loop. -/
structure ExecPost (transport : AIRequest → FetchOutcome) (wid : String)
    (tasks : List AgentTask) (s : ExecState) : Prop where
  keys_perm : (s.results.map Prod.fst).Perm (tasks.map AgentTask.id)
  res_ok : ∀ t ∈ tasks, t.id ∈ closure tasks →
    lookup s.results t.id =
      some (apiOf transport t (prevResultsArray s.results t.dependencies))
  res_fail : ∀ t ∈ tasks, t.id ∉ closure tasks →
    lookup s.results t.id = some depFailResult
  disp_present : ∀ t ∈ tasks, t.id ∈ closure tasks →
    dispatchEvent wid t ∈ s.trace
  disp_ok : DispatchOK wid tasks s.trace
  wf_sorted : (wfProgressValues s.trace).Sorted (· ≤ ·)
  wf_le100 : ∀ v ∈ wfProgressValues s.trace, v ≤ 100

/-- What holds of a finished `executeWorkflow` run. -/
structure WorkflowSpec (transport : AIRequest → FetchOutcome) (wid : String)
    (tasks : List AgentTask) (res : List (String × AgentTaskResult))
    (tr : List WorkflowProgress) : Prop where
  keys_perm : (res.map Prod.fst).Perm (tasks.map AgentTask.id)
  res_ok : ∀ t ∈ tasks, t.id ∈ closure tasks →
    lookup res t.id =
      some (apiOf transport t (prevResultsArray res t.dependencies))
  res_fail : ∀ t ∈ tasks, t.id ∉ closure tasks →
    lookup res t.id = some depFailResult
  disp_present : ∀ t ∈ tasks, t.id ∈ closure tasks → dispatchEvent wid t ∈ tr
  disp_ok : DispatchOK wid tasks tr
  wf_sorted : (wfProgressValues tr).Sorted (· ≤ ·)
  wf_le100 : ∀ v ∈ wfProgressValues tr, v ≤ 100
  last_eq : tr.getLast? = some (finalEvent wid)
  hundred_mem : 100 ∈ wfProgressValues tr

/-! ## Concrete inputs used by counterexamples and witnesses -/

/-- A transport whose every call succeeds with content `done`. -/
def exTransportOk : AIRequest → FetchOutcome :=
  fun _ => .ok { success := true, content := "done" }

/-- A transport that always fails at the network level. -/
def exTransportThrows : AIRequest → FetchOutcome :=
  fun _ => .throws "Network error"

/-- A transport that fails the agent named `a1` and succeeds otherwise. -/
def exTransportMixed : AIRequest → FetchOutcome :=
  fun req => if req.agentName = "a1" then .throws "Network error"
             else .ok { success := true, content := "done" }

/-- The identity schedule (settle each batch in batch order). -/
def exSched : Nat → AgentTask → Nat := fun _ _ => 0

/-- An independent task `A`. -/
def exTaskA : AgentTask :=
  { id := "A", agentId := "a1", agentRole := .researcher
    description := "research", dependencies := [] }

/-- A task `B` depending on `A`. -/
def exTaskB : AgentTask :=
  { id := "B", agentId := "b1", agentRole := .writer
    description := "write", dependencies := ["A"] }

/-- A task `C` depending on `A` and `B`. -/
def exTaskC : AgentTask :=
  { id := "C", agentId := "c1", agentRole := .translator
    description := "translate", dependencies := ["A", "B"] }

/-- `A` made cyclic: it depends on `B`. -/
def exCycA : AgentTask :=
  { id := "A", agentId := "a1", agentRole := .researcher
    description := "research", dependencies := ["B"] }

/-- `B` made cyclic: it depends on `A`. -/
def exCycB : AgentTask :=
  { id := "B", agentId := "b1", agentRole := .writer
    description := "write", dependencies := ["A"] }

/-- A task outside the `A`/`B` cycle that depends on the cyclic `A`. -/
def exCycC : AgentTask :=
  { id := "C", agentId := "c1", agentRole := .translator
    description := "translate", dependencies := ["A"] }

/-- A CI run first observed while still in progress. -/
def exRunInProgress : GitHubWorkflowRun :=
  { id := 5, name := "Deploy", status := "in_progress", conclusion := none
    html_url := "https://github.com/o/r/actions/runs/5", created_at := 0 }

/-- The same CI run after it completed successfully. -/
def exRunDone : GitHubWorkflowRun :=
  { id := 5, name := "Deploy", status := "completed"
    conclusion := some "success"
    html_url := "https://github.com/o/r/actions/runs/5", created_at := 0 }

/-- A polling oracle: the first poll sees the run in progress, every later
poll sees it completed with conclusion `success`. -/
def exPollsC2 : Nat → PollOutcome :=
  fun n => if n = 1 then .ok [exRunInProgress] else .ok [exRunDone]

/-- A develop-stage payload with one fenced block after a path hint. -/
def exDevContent : String := "File: README.md\n```\nhello world\n```"

/-- A sample invocation request. -/
def exReq : AIRequest :=
  { agentRole := .researcher, agentName := "researcher-1"
    taskDescription := "research" }

/-- The environment of the C5 scenario: config present, develop output
parseable, branch/commits/PR all succeed, and the CI listing never shows a
matching run, so the monitor times out. -/
def exEnvC5 : GitHubEnv :=
  { transport := fun _ => .ok { success := true, content := exDevContent }
    sched := exSched
    hasConfig := true
    widTs := 1, branchTs := 2
    fetchFiles := .ok []
    createBranch := .ok ()
    commitFile := fun _ => .ok ()
    createPR := .ok (7, "https://github.com/o/r/pull/7")
    polls := fun _ => .ok []
    clock := fun _ => 0
    monitorStart := 0
    mergePR := .ok true
    mergedAtISO := "2026-01-01T00:00:00.000Z" }

end Orchestrator

namespace Orchestrator

/-! ## Helper lemmas: association lists, schedules, rounding -/

theorem lookup_nil (k : String) : lookup [] k = none := rfl

theorem lookup_cons (p : String × AgentTaskResult)
    (l : List (String × AgentTaskResult)) (k : String) :
    lookup (p :: l) k = if p.1 = k then some p.2 else lookup l k := by
  unfold lookup
  rcases eq_or_ne p.1 k with h | h
  · simp [List.find?, h]
  · simp only [List.find?]
    have : (p.1 == k) = false := beq_false_of_ne h
    simp [this, h]

theorem lookup_append (l1 l2 : List (String × AgentTaskResult)) (k : String) :
    lookup (l1 ++ l2) k =
      ((lookup l1 k).map some).getD (lookup l2 k) := by
  induction l1 with
  | nil => simp [lookup_nil]
  | cons p t ih =>
    rcases eq_or_ne p.1 k with h | h
    · simp [lookup_cons, h]
    · simpa [lookup_cons, h] using ih

theorem lookup_append_of_mem (l1 l2 : List (String × AgentTaskResult))
    (k : String) (h : k ∈ l1.map Prod.fst) :
    lookup (l1 ++ l2) k = lookup l1 k := by
  have : (lookup l1 k).isSome := by
    induction l1 with
    | nil => simp at h
    | cons p t ih =>
      rcases eq_or_ne p.1 k with h1 | h1
      · simp [lookup_cons, h1]
      · rw [lookup_cons]
        simp only [h1, if_false]
        apply ih
        simpa [h1.symm] using h
  rw [lookup_append]
  rcases Option.isSome_iff_exists.mp this with ⟨v, hv⟩
  simp [hv]

theorem lookup_append_of_not_mem (l1 l2 : List (String × AgentTaskResult))
    (k : String) (h : k ∉ l1.map Prod.fst) :
    lookup (l1 ++ l2) k = lookup l2 k := by
  have : lookup l1 k = none := by
    induction l1 with
    | nil => rfl
    | cons p t ih =>
      rw [lookup_cons]
      have hp : p.1 ≠ k := by
        intro he
        exact h (by simp [he])
      simp only [hp, if_false]
      exact ih (fun hm => h (by simp [List.mem_cons]; right; simpa using hm))
  rw [lookup_append, this]
  rfl

theorem mem_keys_iff_lookup_isSome (l : List (String × AgentTaskResult))
    (k : String) : k ∈ l.map Prod.fst ↔ (lookup l k).isSome := by
  induction l with
  | nil => simp [lookup_nil]
  | cons p t ih =>
    rcases eq_or_ne p.1 k with h | h
    · simp [lookup_cons, h]
    · rw [lookup_cons]
      simp only [List.map_cons, List.mem_cons, h, if_false]
      constructor
      · rintro (he | hm)
        · exact absurd he.symm h
        · exact ih.mp hm
      · intro hs
        exact Or.inr (ih.mpr hs)

theorem setEntry_fresh (l : List (String × AgentTaskResult)) (k : String)
    (v : AgentTaskResult) (h : k ∉ l.map Prod.fst) :
    setEntry l k v = l ++ [(k, v)] := by
  unfold setEntry
  have hf : l.find? (fun p => p.1 == k) = none := by
    rw [List.find?_eq_none]
    intro p hp hbeq
    exact h (List.mem_map.mpr ⟨p, hp, eq_of_beq hbeq⟩)
  simp [hf]

theorem insertByKey_perm (key : AgentTask → Nat) (t : AgentTask)
    (l : List AgentTask) : (insertByKey key t l).Perm (t :: l) := by
  induction l with
  | nil => simp [insertByKey]
  | cons u rest ih =>
    unfold insertByKey
    split
    · exact List.Perm.refl _
    · exact (List.Perm.cons u ih).trans (List.Perm.swap t u rest)

theorem orderByKey_perm (key : AgentTask → Nat) (l : List AgentTask) :
    (orderByKey key l).Perm l := by
  induction l with
  | nil => exact List.Perm.refl _
  | cons t rest ih =>
    exact (insertByKey_perm key t (orderByKey key rest)).trans
      (List.Perm.cons t ih)

theorem orderByKey_eq_nil (key : AgentTask → Nat) (l : List AgentTask)
    (h : orderByKey key l = []) : l = [] := by
  have := (orderByKey_perm key l).length_eq
  rw [h] at this
  exact List.eq_nil_of_length_eq_zero this.symm

theorem filter_not_of_filter_nil {α : Type} (p : α → Bool) (l : List α)
    (h : l.filter p = []) : l.filter (fun a => !(p a)) = l := by
  induction l with
  | nil => rfl
  | cons a t ih =>
    rw [List.filter_cons] at h ⊢
    by_cases hp : p a = true
    · simp [hp] at h
    · have hp' : p a = false := by simpa using hp
      simp only [hp', if_false, Bool.not_false, if_true] at h ⊢
      rw [ih h]

theorem filter_not_length_lt {α : Type} (p : α → Bool) (l : List α)
    (x : α) (hx : x ∈ l) (hpx : p x = true) :
    (l.filter (fun a => !(p a))).length < l.length := by
  induction l with
  | nil => simp at hx
  | cons a t ih =>
    rw [List.filter_cons]
    rcases List.mem_cons.mp hx with rfl | hxt
    · simp only [hpx, Bool.not_true, if_false]
      exact Nat.lt_succ_of_le (List.length_filter_le _ _)
    · by_cases hpa : (!(p a)) = true
      · simp only [hpa, if_true, List.length_cons]
        exact Nat.succ_lt_succ (ih hxt)
      · simp only [hpa, if_false, List.length_cons]
        exact Nat.lt_succ_of_le (Nat.le_of_lt (ih hxt))

theorem nodup_length_le (l l2 : List String) (h : l.Nodup)
    (hsub : ∀ x ∈ l, x ∈ l2) : l.length ≤ l2.length := by
  have h1 : l.toFinset.card = l.length := List.toFinset_card_of_nodup h
  have h2 : l.toFinset ⊆ l2.toFinset := by
    intro x hx
    simp only [List.mem_toFinset] at hx ⊢
    exact hsub x hx
  calc l.length = l.toFinset.card := h1.symm
    _ ≤ l2.toFinset.card := Finset.card_le_card h2
    _ ≤ l2.length := List.toFinset_card_le l2

theorem roundPct_mono (k k' n : Nat) (h : k ≤ k') :
    roundPct k n ≤ roundPct k' n := by
  unfold roundPct
  exact Nat.div_le_div_right (by omega)

theorem roundPct_le_100 (k n : Nat) (h : k ≤ n) : roundPct k n ≤ 100 := by
  unfold roundPct
  rcases Nat.eq_zero_or_pos n with rfl | hn
  · simp at h
    simp [h]
  · have h200 := Nat.mul_le_mul_left 200 h
    have hlt := (Nat.div_lt_iff_lt_mul (show 0 < 2 * n by omega)).mpr
      (show 200 * k + n < 101 * (2 * n) by omega)
    omega

theorem roundPct_self (n : Nat) (h : 0 < n) : roundPct n n = 100 := by
  unfold roundPct
  have h2 : 200 * n + n = n + 2 * n * 100 := by ring
  rw [h2, Nat.add_mul_div_left _ _ (show 0 < 2 * n by omega),
    Nat.div_eq_of_lt (by omega)]

theorem roundPct_zero (n : Nat) : roundPct 0 n = 0 := by
  unfold roundPct
  rcases Nat.eq_zero_or_pos n with rfl | hn
  · rfl
  · rw [Nat.mul_zero, Nat.zero_add]
    exact Nat.div_eq_of_lt (by omega)

/-! ## Helper lemmas: the dependency fixpoint -/

theorem mem_closureStep (tasks : List AgentTask) (s : List String) (x : String) :
    x ∈ closureStep tasks s ↔
      x ∈ s ∨ ∃ t ∈ tasks, t.id = x ∧ ∀ d ∈ t.dependencies, d ∈ s := by
  unfold closureStep
  simp only [List.mem_append, List.mem_map, List.mem_filter]
  constructor
  · rintro (hs | ⟨t, ⟨ht, hq⟩, rfl⟩)
    · exact Or.inl hs
    · right
      refine ⟨t, ht, rfl, ?_⟩
      intro d hd
      have hall := (Bool.and_eq_true _ _).mp hq |>.2
      rw [List.all_eq_true] at hall
      simpa using hall d hd
  · rintro (hs | ⟨t, ht, rfl, hdeps⟩)
    · exact Or.inl hs
    · by_cases hmem : t.id ∈ s
      · exact Or.inl hmem
      · right
        refine ⟨t, ⟨ht, ?_⟩, rfl⟩
        rw [Bool.and_eq_true]
        refine ⟨by simpa using hmem, ?_⟩
        rw [List.all_eq_true]
        intro d hd
        simpa using hdeps d hd

theorem closureN_succ (tasks : List AgentTask) (k : Nat) :
    closureN tasks (k + 1) = closureStep tasks (closureN tasks k) := rfl

theorem closureN_mono (tasks : List AgentTask) (j k : Nat) (h : j ≤ k)
    (x : String) (hx : x ∈ closureN tasks j) : x ∈ closureN tasks k := by
  induction k with
  | zero => exact (Nat.le_zero.mp h) ▸ hx
  | succ k ih =>
    rcases Nat.lt_or_ge j (k + 1) with hlt | hge
    · have := ih (by omega)
      rw [closureN_succ]
      exact (mem_closureStep _ _ _).mpr (Or.inl this)
    · have : j = k + 1 := by omega
      exact this ▸ hx

theorem closureN_subset_ids (tasks : List AgentTask) (k : Nat) (x : String)
    (hx : x ∈ closureN tasks k) : x ∈ tasks.map AgentTask.id := by
  induction k with
  | zero => simp [closureN] at hx
  | succ k ih =>
    rw [closureN_succ] at hx
    rcases (mem_closureStep _ _ _).mp hx with hs | ⟨t, ht, rfl, _⟩
    · exact ih hs
    · exact List.mem_map.mpr ⟨t, ht, rfl⟩

theorem closureStep_congr (tasks : List AgentTask) (s s' : List String)
    (h : ∀ y, y ∈ s ↔ y ∈ s') (x : String) :
    x ∈ closureStep tasks s ↔ x ∈ closureStep tasks s' := by
  rw [mem_closureStep, mem_closureStep]
  constructor
  · rintro (hs | ⟨t, ht, rfl, hd⟩)
    · exact Or.inl ((h x).mp hs)
    · exact Or.inr ⟨t, ht, rfl, fun d hdd => (h d).mp (hd d hdd)⟩
  · rintro (hs | ⟨t, ht, rfl, hd⟩)
    · exact Or.inl ((h x).mpr hs)
    · exact Or.inr ⟨t, ht, rfl, fun d hdd => (h d).mpr (hd d hdd)⟩

theorem closureN_fix (tasks : List AgentTask) (i : Nat)
    (hfix : ∀ y, y ∈ closureN tasks (i + 1) ↔ y ∈ closureN tasks i) :
    ∀ j y, (y ∈ closureN tasks (i + j) ↔ y ∈ closureN tasks i) := by
  intro j
  induction j with
  | zero => intro y; rfl
  | succ j ih =>
    intro y
    have : (i + (j + 1)) = (i + j) + 1 := by omega
    rw [this, closureN_succ]
    calc y ∈ closureStep tasks (closureN tasks (i + j))
        ↔ y ∈ closureStep tasks (closureN tasks i) :=
          closureStep_congr tasks _ _ ih y
      _ ↔ y ∈ closureN tasks (i + 1) := Iff.rfl
      _ ↔ y ∈ closureN tasks i := hfix y

/-! ## Helper lemmas: traces -/

theorem wfProgressValues_append (tr ext : List WorkflowProgress) :
    wfProgressValues (tr ++ ext) = wfProgressValues tr ++ wfProgressValues ext := by
  simp [wfProgressValues]

theorem wfProgressValues_skip (e : WorkflowProgress) (h : e.stepId ≠ "workflow") :
    wfProgressValues [e] = [] := by
  simp [wfProgressValues, List.filter, beq_false_of_ne h]

theorem wfProgressValues_keep (e : WorkflowProgress) (h : e.stepId = "workflow") :
    wfProgressValues [e] = [e.progress] := by
  simp [wfProgressValues, List.filter, h]

theorem DispatchOK_append (wid : String) (tasks : List AgentTask)
    (tr ext : List WorkflowProgress) (h : DispatchOK wid tasks tr)
    (hext : ∀ t ∈ tasks, dispatchEvent wid t ∉ ext) :
    DispatchOK wid tasks (tr ++ ext) := by
  intro t ht pre post heq d hd
  rcases List.append_eq_append_iff.mp heq with ⟨a', _, hext'⟩ | ⟨c', htr, hd'⟩
  · exact absurd (hext' ▸ List.mem_append_right a' (List.mem_cons_self _ _))
      (hext t ht)
  · cases c' with
    | nil =>
      simp only [List.nil_append] at hd'
      exact absurd (hd' ▸ List.mem_cons_self _ _) (hext t ht)
    | cons e c'' =>
      have he : e = dispatchEvent wid t := by
        have := congrArg List.head? hd'
        simpa using this.symm
      rw [he] at htr
      exact h t ht pre c'' htr d hd

/-- A `dispatchEvent` determines the task id. -/
theorem dispatchEvent_id (wid : String) (t u : AgentTask)
    (h : dispatchEvent wid t = dispatchEvent wid u) : t.id = u.id := by
  have := congrArg WorkflowProgress.stepId h
  simpa [dispatchEvent] using this

/-- With pairwise-distinct ids, a task of the graph is determined by its
id. -/
theorem task_eq_of_id_eq (tasks : List AgentTask) (hids : idsNodup tasks)
    (t u : AgentTask) (ht : t ∈ tasks) (hu : u ∈ tasks) (h : t.id = u.id) :
    t = u := by
  unfold idsNodup at hids
  induction tasks with
  | nil => simp at ht
  | cons a rest ih =>
    rw [List.map_cons, List.nodup_cons] at hids
    rcases List.mem_cons.mp ht with rfl | ht'
    · rcases List.mem_cons.mp hu with rfl | hu'
      · rfl
      · exact absurd (h ▸ List.mem_map.mpr ⟨u, hu', rfl⟩) hids.1
    · rcases List.mem_cons.mp hu with rfl | hu'
      · exact absurd (h ▸ List.mem_map.mpr ⟨t, ht', rfl⟩) hids.1
      · exact ih hids.2 ht' hu'

theorem wfProgressValues_eq_nil (l : List WorkflowProgress)
    (h : ∀ e ∈ l, e.stepId ≠ "workflow") : wfProgressValues l = [] := by
  unfold wfProgressValues
  have : l.filter (fun e => e.stepId == "workflow") = [] := by
    rw [List.filter_eq_nil_iff]
    intro e he
    simp [beq_false_of_ne (h e he)]
  rw [this]
  rfl

theorem DispatchOK_extend (wid : String) (tasks : List AgentTask)
    (hids : idsNodup tasks) (tr : List WorkflowProgress)
    (ready : List AgentTask) (hsub : ∀ u ∈ ready, u ∈ tasks)
    (hdeps : ∀ u ∈ ready, ∀ d ∈ u.dependencies,
      ∃ e ∈ tr, e.stepId = d ∧
        (e.status = PStatus.completed ∨ e.status = PStatus.failed))
    (h : DispatchOK wid tasks tr) :
    DispatchOK wid tasks (tr ++ ready.map (dispatchEvent wid)) := by
  intro t ht pre post heq d hd
  have inChunk :
      ∀ pre', pre = tr ++ pre' →
        dispatchEvent wid t ∈ ready.map (dispatchEvent wid) →
        ∃ e ∈ pre, e.stepId = d ∧
          (e.status = PStatus.completed ∨ e.status = PStatus.failed) := by
    intro pre' hpre hmem
    rcases List.mem_map.mp hmem with ⟨u, hu, hequ⟩
    have hidu : u.id = t.id := dispatchEvent_id wid u t hequ
    have hut : u = t := task_eq_of_id_eq tasks hids u t (hsub u hu) ht hidu
    rcases hdeps u hu d (by rw [hut]; exact hd) with ⟨e, he, hprop⟩
    exact ⟨e, by rw [hpre]; exact List.mem_append_left pre' he, hprop⟩
  rcases List.append_eq_append_iff.mp heq with ⟨a', hpre, hext⟩ | ⟨c', htr, hd'⟩
  · exact inChunk a' hpre
      (by rw [hext]; exact List.mem_append_right a' (List.mem_cons_self _ _))
  · cases c' with
    | nil =>
      simp only [List.append_nil] at htr
      simp only [List.nil_append] at hd'
      exact inChunk [] (by rw [htr, List.append_nil])
        (by rw [← hd']; exact List.mem_cons_self _ _)
    | cons e c'' =>
      have he : e = dispatchEvent wid t := by
        have := congrArg List.head? hd'
        simpa using this.symm
      rw [he] at htr
      exact h t ht pre c'' htr d hd

theorem prevResultsArray_congr (l l' : List (String × AgentTaskResult))
    (deps : List String) (h : ∀ d ∈ deps, lookup l' d = lookup l d) :
    prevResultsArray l' deps = prevResultsArray l deps := by
  induction deps with
  | nil => rfl
  | cons d rest ih =>
    unfold prevResultsArray
    simp only [List.filterMap_cons]
    rw [h d (List.mem_cons_self _ _)]
    have ih' := ih (fun d' hd' => h d' (List.mem_cons_of_mem _ hd'))
    unfold prevResultsArray at ih'
    cases lookup l d with
    | none => exact ih'
    | some r =>
      by_cases hs : r.success
      · simp only [hs, if_true, ih']
      · simp only [hs, if_false, ih']

theorem lookup_map_const (rem : List AgentTask) (k : String)
    (hk : k ∈ rem.map AgentTask.id) :
    lookup (rem.map (fun u => (u.id, depFailResult))) k = some depFailResult := by
  induction rem with
  | nil => simp at hk
  | cons u rest ih =>
    simp only [List.map_cons]
    rw [lookup_cons]
    rcases eq_or_ne u.id k with he | hne
    · simp [he]
    · simp only [hne, if_false]
      apply ih
      rw [List.map_cons] at hk
      rcases List.mem_cons.mp hk with he | hm
      · exact absurd he.symm hne
      · exact hm

theorem stallFail_spec (wid : String) (rem : List AgentTask) (s : ExecState)
    (hfresh : ∀ u ∈ rem, u.id ∉ s.results.map Prod.fst)
    (hnodup : (rem.map AgentTask.id).Nodup) :
    stallFail wid rem s =
      { results := s.results ++ rem.map (fun u => (u.id, depFailResult))
        completed := s.completed
        trace := s.trace ++ rem.map (stallEvent wid) } := by
  induction rem generalizing s with
  | nil => simp [stallFail]
  | cons u rest ih =>
    unfold stallFail
    rw [setEntry_fresh _ _ _ (hfresh u (List.mem_cons_self _ _))]
    rw [List.map_cons, List.nodup_cons] at hnodup
    rw [ih _ ?_ hnodup.2]
    · simp [List.append_assoc]
    · intro v hv
      simp only [List.map_append, List.mem_append]
      rintro (hold | hnew)
      · exact hfresh v (List.mem_cons_of_mem _ hv) hold
      · have : v.id = u.id := by simpa using hnew
        exact hnodup.1 (this ▸ List.mem_map.mpr ⟨v, hv, rfl⟩)

theorem settleTask_eq (wid : String) (total : Nat) (s : ExecState)
    (t : AgentTask) (r : AgentTaskResult) (hfresh : t.id ∉ s.completed)
    (hkeys : s.results.map Prod.fst = s.completed) :
    settleTask wid total s t r =
      { results := s.results ++ [(t.id, r)]
        completed := s.completed ++ [t.id]
        trace := s.trace ++
          [taskEndEvent wid t r,
           wfProgressEvent wid t.agentId (s.completed.length + 1) total] } := by
  unfold settleTask
  rw [if_neg hfresh, setEntry_fresh _ _ _ (by rw [hkeys]; exact hfresh)]
  simp

theorem batchInv_settle (transport : AIRequest → FetchOutcome) (wid : String)
    (tasks : List AgentTask) (hids : idsNodup tasks)
    (hsent : noSentinelId tasks) (api0 : AgentTask → AgentTaskResult)
    (t : AgentTask) (rest : List AgentTask) (s : ExecState)
    (hinv : BatchInv transport wid tasks api0 (t :: rest) s) :
    BatchInv transport wid tasks api0 rest
      (settleTask wid tasks.length s t (api0 t)) ∧
    (settleTask wid tasks.length s t (api0 t)).completed =
      s.completed ++ [t.id] := by
  have htmem : t ∈ tasks := hinv.rem_tasks t (List.mem_cons_self _ _)
  have htid : t.id ∉ s.completed := hinv.rem_fresh t (List.mem_cons_self _ _)
  have hkeysfun : ∀ d, d ∈ s.completed → d ∈ s.results.map Prod.fst := by
    intro d hd; rw [hinv.keys_eq]; exact hd
  have hpres : ∀ d, d ∈ s.completed →
      lookup (s.results ++ [(t.id, api0 t)]) d = lookup s.results d := by
    intro d hd
    exact lookup_append_of_mem _ _ d (hkeysfun d hd)
  have hprevpres : ∀ u : AgentTask, (∀ d ∈ u.dependencies, d ∈ s.completed) →
      prevResultsArray (s.results ++ [(t.id, api0 t)]) u.dependencies =
        prevResultsArray s.results u.dependencies := by
    intro u hdeps
    exact prevResultsArray_congr _ _ _ (fun d hd => hpres d (hdeps d hd))
  have hnotkey : t.id ∉ s.results.map Prod.fst := by
    rw [hinv.keys_eq]; exact htid
  have hrestnodup := (List.nodup_cons.mp (by
    have := hinv.rem_nodup
    rw [List.map_cons] at this
    exact this))
  rw [settleTask_eq wid tasks.length s t (api0 t) htid hinv.keys_eq]
  refine ⟨?_, rfl⟩
  refine
    { keys_eq := ?_, comp_mem := ?_, comp_nodup := ?_, comp_deps := ?_
      res_char := ?_, settled_evt := ?_, disp_evt := ?_, disp_ok := ?_
      wf_sorted := ?_, wf_bound := ?_, rem_fresh := ?_, rem_tasks := ?_
      rem_nodup := ?_, rem_disp := ?_, rem_deps := ?_, rem_api := ?_ }
  · simp [hinv.keys_eq]
  · intro x hx
    rcases List.mem_append.mp hx with hold | hnew
    · exact hinv.comp_mem x hold
    · have : x = t.id := by simpa using hnew
      exact this ▸ List.mem_map.mpr ⟨t, htmem, rfl⟩
  · rw [List.nodup_append]
    refine ⟨hinv.comp_nodup, List.nodup_singleton _, ?_⟩
    intro a ha hb
    have : a = t.id := by simpa using hb
    exact htid (this ▸ ha)
  · intro u hu huid d hd
    rcases List.mem_append.mp huid with hold | hnew
    · exact List.mem_append_left _ (hinv.comp_deps u hu hold d hd)
    · have hueq : u = t := by
        have : u.id = t.id := by simpa using hnew
        exact task_eq_of_id_eq tasks hids u t hu htmem this
      subst hueq
      exact List.mem_append_left _
        (hinv.rem_deps u (List.mem_cons_self _ _) d hd)
  · intro u hu huid
    rcases List.mem_append.mp huid with hold | hnew
    · rw [hpres u.id hold,
        hprevpres u (hinv.comp_deps u hu hold)]
      exact hinv.res_char u hu hold
    · have hueq : u = t := by
        have : u.id = t.id := by simpa using hnew
        exact task_eq_of_id_eq tasks hids u t hu htmem this
      subst hueq
      rw [lookup_append_of_not_mem _ _ u.id hnotkey]
      rw [hprevpres u (hinv.rem_deps u (List.mem_cons_self _ _))]
      rw [← hinv.rem_api u (List.mem_cons_self _ _)]
      simp [lookup_cons]
  · intro x hx
    rcases List.mem_append.mp hx with hold | hnew
    · rcases hinv.settled_evt x hold with ⟨e, he, hprop⟩
      exact ⟨e, List.mem_append_left _ he, hprop⟩
    · have : x = t.id := by simpa using hnew
      subst this
      refine ⟨taskEndEvent wid t (api0 t), ?_, rfl, ?_⟩
      · exact List.mem_append_right _ (List.mem_cons_self _ _)
      · by_cases hs : (api0 t).success
        · exact Or.inl (by simp [taskEndEvent, hs])
        · exact Or.inr (by simp [taskEndEvent, hs])
  · intro u hu huid
    rcases List.mem_append.mp huid with hold | hnew
    · exact List.mem_append_left _ (hinv.disp_evt u hu hold)
    · have hueq : u = t := by
        have : u.id = t.id := by simpa using hnew
        exact task_eq_of_id_eq tasks hids u t hu htmem this
      subst hueq
      exact List.mem_append_left _ (hinv.rem_disp u (List.mem_cons_self _ _))
  · apply DispatchOK_append wid tasks _ _ hinv.disp_ok
    intro u hu hmem
    rcases List.mem_cons.mp hmem with he | hmem2
    · have := congrArg WorkflowProgress.status he
      by_cases hs : (api0 t).success <;>
        simp [dispatchEvent, taskEndEvent, hs] at this
    · have he : dispatchEvent wid u =
          wfProgressEvent wid t.agentId (s.completed.length + 1) tasks.length := by
        simpa using hmem2
      have := congrArg WorkflowProgress.stepId he
      simp only [dispatchEvent, wfProgressEvent] at this
      exact hsent u hu this
  · rw [wfProgressValues_append]
    have hvals : wfProgressValues
        [taskEndEvent wid t (api0 t),
         wfProgressEvent wid t.agentId (s.completed.length + 1) tasks.length] =
        [roundPct (s.completed.length + 1) tasks.length] := by
      have h2 : ([taskEndEvent wid t (api0 t),
          wfProgressEvent wid t.agentId (s.completed.length + 1) tasks.length] :
            List WorkflowProgress) =
          [taskEndEvent wid t (api0 t)] ++
            [wfProgressEvent wid t.agentId (s.completed.length + 1) tasks.length] := rfl
      rw [h2, wfProgressValues_append,
        wfProgressValues_skip _ (by simpa [taskEndEvent] using hsent t htmem),
        wfProgressValues_keep _ (by simp [wfProgressEvent])]
      rfl
    rw [hvals]
    refine List.pairwise_append.mpr ⟨hinv.wf_sorted, List.pairwise_singleton _ _, ?_⟩
    intro a ha b hb
    have hb' : b = roundPct (s.completed.length + 1) tasks.length := by
      simpa using hb
    subst hb'
    exact (hinv.wf_bound a ha).trans
      (roundPct_mono _ _ _ (Nat.le_succ _))
  · intro v hv
    rw [wfProgressValues_append] at hv
    have hlen : (s.completed ++ [t.id]).length = s.completed.length + 1 := by simp
    rw [hlen]
    rcases List.mem_append.mp hv with hold | hnew
    · exact (hinv.wf_bound v hold).trans (roundPct_mono _ _ _ (Nat.le_succ _))
    · have hvals : wfProgressValues
          [taskEndEvent wid t (api0 t),
           wfProgressEvent wid t.agentId (s.completed.length + 1) tasks.length] =
          [roundPct (s.completed.length + 1) tasks.length] := by
        have h2 : ([taskEndEvent wid t (api0 t),
            wfProgressEvent wid t.agentId (s.completed.length + 1) tasks.length] :
              List WorkflowProgress) =
            [taskEndEvent wid t (api0 t)] ++
              [wfProgressEvent wid t.agentId (s.completed.length + 1) tasks.length] := rfl
        rw [h2, wfProgressValues_append,
          wfProgressValues_skip _ (by simpa [taskEndEvent] using hsent t htmem),
          wfProgressValues_keep _ (by simp [wfProgressEvent])]
        rfl
      rw [hvals] at hnew
      have : v = roundPct (s.completed.length + 1) tasks.length := by simpa using hnew
      exact this ▸ Nat.le_refl _
  · intro u hu
    have hfr := hinv.rem_fresh u (List.mem_cons_of_mem _ hu)
    intro hmem
    rcases List.mem_append.mp hmem with hold | hnew
    · exact hfr hold
    · have : u.id = t.id := by simpa using hnew
      exact hrestnodup.1 (this ▸ List.mem_map.mpr ⟨u, hu, rfl⟩)
  · exact fun u hu => hinv.rem_tasks u (List.mem_cons_of_mem _ hu)
  · exact hrestnodup.2
  · exact fun u hu =>
      List.mem_append_left _ (hinv.rem_disp u (List.mem_cons_of_mem _ hu))
  · exact fun u hu d hd =>
      List.mem_append_left _ (hinv.rem_deps u (List.mem_cons_of_mem _ hu) d hd)
  · intro u hu
    rw [hprevpres u (hinv.rem_deps u (List.mem_cons_of_mem _ hu))]
    exact hinv.rem_api u (List.mem_cons_of_mem _ hu)

theorem settleFold_spec (transport : AIRequest → FetchOutcome) (wid : String)
    (tasks : List AgentTask) (hids : idsNodup tasks)
    (hsent : noSentinelId tasks) (api0 : AgentTask → AgentTaskResult)
    (rem : List AgentTask) (s : ExecState)
    (hinv : BatchInv transport wid tasks api0 rem s) :
    BatchInv transport wid tasks api0 []
      (settleFold wid tasks.length api0 rem s) ∧
    (settleFold wid tasks.length api0 rem s).completed =
      s.completed ++ rem.map AgentTask.id := by
  induction rem generalizing s with
  | nil => exact ⟨hinv, by simp [settleFold]⟩
  | cons t rest ih =>
    obtain ⟨hinv', hcomp⟩ :=
      batchInv_settle transport wid tasks hids hsent api0 t rest s hinv
    unfold settleFold
    obtain ⟨hfin, hcomp2⟩ := ih _ hinv'
    refine ⟨hfin, ?_⟩
    rw [hcomp2, hcomp]
    simp

theorem depsMet_iff (completed : List String) (t : AgentTask) :
    depsMet completed t = true ↔ ∀ d ∈ t.dependencies, d ∈ completed := by
  unfold depsMet
  rw [List.all_eq_true]
  constructor
  · intro h d hd
    simpa using h d hd
  · intro h d hd
    simpa using h d hd

theorem batchInv_start (transport : AIRequest → FetchOutcome)
    (sched : Nat → AgentTask → Nat) (wid : String) (tasks : List AgentTask)
    (hids : idsNodup tasks) (hsent : noSentinelId tasks) (i : Nat)
    (pending : List AgentTask) (s : ExecState)
    (hinv : ExecInv transport wid tasks i pending s) :
    BatchInv transport wid tasks
      (fun t => apiOf transport t (prevResultsArray s.results t.dependencies))
      (orderByKey (sched i) (pending.filter (fun t => depsMet s.completed t)))
      { s with trace :=
          s.trace ++ List.map (dispatchEvent wid) (pending.filter (fun t => depsMet s.completed t)) } := by
  set ready := pending.filter (fun t => depsMet s.completed t) with hready
  have hreadysub : ∀ u ∈ ready, u ∈ pending :=
    fun u hu => (List.mem_filter.mp hu).1
  have hreadytasks : ∀ u ∈ ready, u ∈ tasks :=
    fun u hu => hinv.pend_sub.subset (hreadysub u hu)
  have hreadydeps : ∀ u ∈ ready, ∀ d ∈ u.dependencies, d ∈ s.completed := by
    intro u hu
    exact (depsMet_iff s.completed u).mp (List.mem_filter.mp hu).2
  have hperm : (orderByKey (sched i) ready).Perm ready := orderByKey_perm _ _
  have hordermem : ∀ u ∈ orderByKey (sched i) ready, u ∈ ready :=
    fun u hu => hperm.subset hu
  have hchunknil : wfProgressValues (ready.map (dispatchEvent wid)) = [] := by
    apply wfProgressValues_eq_nil
    intro e he
    rcases List.mem_map.mp he with ⟨u, hu, rfl⟩
    exact hsent u (hreadytasks u hu)
  refine
    { keys_eq := hinv.keys_eq, comp_mem := hinv.comp_mem
      comp_nodup := hinv.comp_nodup, comp_deps := hinv.comp_deps
      res_char := hinv.res_char, settled_evt := ?_, disp_evt := ?_
      disp_ok := ?_, wf_sorted := ?_, wf_bound := ?_, rem_fresh := ?_
      rem_tasks := ?_, rem_nodup := ?_, rem_disp := ?_, rem_deps := ?_
      rem_api := fun u _ => rfl }
  · intro x hx
    rcases hinv.settled_evt x hx with ⟨e, he, hprop⟩
    exact ⟨e, List.mem_append_left _ he, hprop⟩
  · intro u hu huid
    exact List.mem_append_left _ (hinv.disp_evt u hu huid)
  · exact DispatchOK_extend wid tasks hids s.trace ready hreadytasks
      (fun u hu d hd => hinv.settled_evt d (hreadydeps u hu d hd))
      hinv.disp_ok
  · rw [wfProgressValues_append, hchunknil, List.append_nil]
    exact hinv.wf_sorted
  · intro v hv
    rw [wfProgressValues_append, hchunknil, List.append_nil] at hv
    exact hinv.wf_bound v hv
  · exact fun u hu => hinv.pend_fresh u (hreadysub u (hordermem u hu))
  · exact fun u hu => hreadytasks u (hordermem u hu)
  · have hnodup : (ready.map AgentTask.id).Nodup := by
      have hsub : (ready.map AgentTask.id).Sublist (tasks.map AgentTask.id) :=
        List.Sublist.map _ ((List.filter_sublist pending).trans hinv.pend_sub)
      exact List.Nodup.sublist hsub hids
    exact (List.Perm.nodup_iff (List.Perm.map AgentTask.id hperm)).mpr hnodup
  · intro u hu
    exact List.mem_append_right _ (List.mem_map.mpr ⟨u, hordermem u hu, rfl⟩)
  · exact fun u hu => hreadydeps u (hordermem u hu)

theorem execInv_next (transport : AIRequest → FetchOutcome) (wid : String)
    (tasks : List AgentTask) (hids : idsNodup tasks) (i : Nat)
    (pending : List AgentTask) (s s' : ExecState)
    (api0 : AgentTask → AgentTaskResult) (order : List AgentTask)
    (hinv : ExecInv transport wid tasks i pending s)
    (hbatch : BatchInv transport wid tasks api0 [] s')
    (hperm : order.Perm (pending.filter (fun t => depsMet s.completed t)))
    (hcomp : s'.completed = s.completed ++ order.map AgentTask.id)
    (hne : order ≠ []) :
    ExecInv transport wid tasks (i + 1)
      (pending.filter (fun t => !(depsMet s.completed t))) s' := by
  set ready := pending.filter (fun t => depsMet s.completed t) with hready
  have hreadysub : ∀ u ∈ ready, u ∈ pending :=
    fun u hu => (List.mem_filter.mp hu).1
  have hreadytasks : ∀ u ∈ ready, u ∈ tasks :=
    fun u hu => hinv.pend_sub.subset (hreadysub u hu)
  have hpendtasks : ∀ u ∈ pending, u ∈ tasks := fun u hu => hinv.pend_sub.subset hu
  have hidseq : ∀ x, x ∈ order.map AgentTask.id ↔ x ∈ ready.map AgentTask.id :=
    fun x => (List.Perm.map AgentTask.id hperm).mem_iff
  refine
    { pend_sub := (List.filter_sublist pending).trans hinv.pend_sub
      keys_eq := hbatch.keys_eq, pend_fresh := ?_, cover := ?_
      comp_mem := hbatch.comp_mem, comp_nodup := hbatch.comp_nodup
      iter_le := ?_, clos_eq := ?_, comp_deps := hbatch.comp_deps
      res_char := hbatch.res_char, settled_evt := hbatch.settled_evt
      disp_evt := hbatch.disp_evt, disp_ok := hbatch.disp_ok
      wf_sorted := hbatch.wf_sorted, wf_bound := hbatch.wf_bound }
  · intro t ht
    have htp := (List.mem_filter.mp ht).1
    have hnm := (List.mem_filter.mp ht).2
    rw [hcomp]
    intro hmem
    rcases List.mem_append.mp hmem with hold | hnew
    · exact hinv.pend_fresh t htp hold
    · rcases List.mem_map.mp ((hidseq t.id).mp hnew) with ⟨u, hu, hequ⟩
      have hut : u = t := task_eq_of_id_eq tasks hids u t
        (hreadytasks u hu) (hpendtasks t htp) hequ
      have := (List.mem_filter.mp hu).2
      rw [hut] at this
      rw [this] at hnm
      simp at hnm
  · intro t ht
    rcases hinv.cover t ht with hold | hpend
    · exact Or.inl (by rw [hcomp]; exact List.mem_append_left _ hold)
    · by_cases hdm : depsMet s.completed t = true
      · refine Or.inl ?_
        rw [hcomp]
        refine List.mem_append_right _ ((hidseq t.id).mpr ?_)
        exact List.mem_map.mpr ⟨t, List.mem_filter.mpr ⟨hpend, hdm⟩, rfl⟩
      · exact Or.inr (List.mem_filter.mpr ⟨hpend, by simpa using hdm⟩)
  · have h1 : 1 ≤ order.length := by
      cases order with
      | nil => exact absurd rfl hne
      | cons a b => simp
    have := hinv.iter_le
    rw [hcomp]
    simp only [List.length_append, List.length_map]
    omega
  · intro x
    rw [hcomp, closureN_succ]
    constructor
    · intro hmem
      rcases List.mem_append.mp hmem with hold | hnew
      · exact (mem_closureStep _ _ _).mpr
          (Or.inl ((hinv.clos_eq x).mp hold))
      · rcases List.mem_map.mp ((hidseq x).mp hnew) with ⟨u, hu, hequ⟩
        refine (mem_closureStep _ _ _).mpr (Or.inr ⟨u, hreadytasks u hu, hequ, ?_⟩)
        intro d hd
        exact (hinv.clos_eq d).mp
          ((depsMet_iff s.completed u).mp (List.mem_filter.mp hu).2 d hd)
    · intro hmem
      rcases (mem_closureStep _ _ _).mp hmem with hold | ⟨u, hu, rfl, hdeps⟩
      · exact List.mem_append_left _ ((hinv.clos_eq x).mpr hold)
      · have hdeps' : ∀ d ∈ u.dependencies, d ∈ s.completed :=
          fun d hd => (hinv.clos_eq d).mpr (hdeps d hd)
        rcases hinv.cover u hu with hold | hpend
        · exact List.mem_append_left _ hold
        · refine List.mem_append_right _ ((hidseq u.id).mpr ?_)
          exact List.mem_map.mpr
            ⟨u, List.mem_filter.mpr ⟨hpend, (depsMet_iff s.completed u).mpr hdeps'⟩, rfl⟩

theorem execPost_of_covered (transport : AIRequest → FetchOutcome)
    (wid : String) (tasks : List AgentTask) (hids : idsNodup tasks) (i : Nat)
    (pending : List AgentTask) (s : ExecState)
    (hinv : ExecInv transport wid tasks i pending s)
    (hcov : ∀ t ∈ tasks, t.id ∈ s.completed) :
    ExecPost transport wid tasks s := by
  have hlen : s.completed.length ≤ tasks.length := by
    have := nodup_length_le s.completed (tasks.map AgentTask.id)
      hinv.comp_nodup hinv.comp_mem
    simpa using this
  have hitotal : i ≤ tasks.length := hinv.iter_le.trans hlen
  have hclos : ∀ x, x ∈ closure tasks ↔ x ∈ s.completed := by
    intro x
    constructor
    · intro hx
      have hxid := closureN_subset_ids tasks tasks.length x hx
      rcases List.mem_map.mp hxid with ⟨t, ht, rfl⟩
      exact hcov t ht
    · intro hx
      exact closureN_mono tasks i tasks.length hitotal x ((hinv.clos_eq x).mp hx)
  refine
    { keys_perm := ?_
      res_ok := fun t ht hc => hinv.res_char t ht ((hclos t.id).mp hc)
      res_fail := ?_
      disp_present := fun t ht hc => hinv.disp_evt t ht ((hclos t.id).mp hc)
      disp_ok := hinv.disp_ok, wf_sorted := hinv.wf_sorted
      wf_le100 := fun v hv => (hinv.wf_bound v hv).trans
        (roundPct_le_100 _ _ hlen) }
  · rw [hinv.keys_eq]
    rw [List.perm_ext_iff_of_nodup hinv.comp_nodup hids]
    intro a
    constructor
    · exact hinv.comp_mem a
    · intro ha
      rcases List.mem_map.mp ha with ⟨t, ht, rfl⟩
      exact hcov t ht
  · intro t ht hc
    exact absurd ((hclos t.id).mpr (hcov t ht)) hc

theorem execPost_of_stall (transport : AIRequest → FetchOutcome)
    (wid : String) (tasks : List AgentTask) (hids : idsNodup tasks)
    (hsent : noSentinelId tasks) (i : Nat) (pending : List AgentTask)
    (s : ExecState) (hinv : ExecInv transport wid tasks i pending s)
    (hready : pending.filter (fun t => depsMet s.completed t) = []) :
    ExecPost transport wid tasks (stallFail wid pending s) := by
  have hpendtasks : ∀ u ∈ pending, u ∈ tasks := fun u hu => hinv.pend_sub.subset hu
  have hpnodup : (pending.map AgentTask.id).Nodup :=
    List.Nodup.sublist (List.Sublist.map _ hinv.pend_sub) hids
  have hfresh : ∀ u ∈ pending, u.id ∉ s.results.map Prod.fst := by
    intro u hu
    rw [hinv.keys_eq]
    exact hinv.pend_fresh u hu
  rw [stallFail_spec wid pending s hfresh hpnodup]
  have hkeysF :
      (s.results ++ pending.map (fun u => (u.id, depFailResult))).map Prod.fst =
        s.completed ++ pending.map AgentTask.id := by
    rw [List.map_append, hinv.keys_eq, List.map_map]
    rfl
  have hlen : s.completed.length ≤ tasks.length := by
    have := nodup_length_le s.completed (tasks.map AgentTask.id)
      hinv.comp_nodup hinv.comp_mem
    simpa using this
  have hitotal : i ≤ tasks.length := hinv.iter_le.trans hlen
  have hfix : ∀ x, x ∈ closureN tasks (i + 1) ↔ x ∈ closureN tasks i := by
    intro x
    rw [closureN_succ]
    constructor
    · intro hmem
      rcases (mem_closureStep _ _ _).mp hmem with hold | ⟨u, hu, rfl, hdeps⟩
      · exact hold
      · have hdeps' : ∀ d ∈ u.dependencies, d ∈ s.completed :=
          fun d hd => (hinv.clos_eq d).mpr (hdeps d hd)
        rcases hinv.cover u hu with hold | hpend
        · exact (hinv.clos_eq u.id).mp hold
        · have : u ∈ pending.filter (fun t => depsMet s.completed t) :=
            List.mem_filter.mpr ⟨hpend, (depsMet_iff s.completed u).mpr hdeps'⟩
          rw [hready] at this
          simp at this
    · intro hmem
      exact (mem_closureStep _ _ _).mpr (Or.inl hmem)
  have hclosF : ∀ x, x ∈ closure tasks ↔ x ∈ s.completed := by
    intro x
    unfold closure
    have heq : tasks.length = i + (tasks.length - i) := by omega
    rw [heq]
    exact (closureN_fix tasks i hfix (tasks.length - i) x).trans
      (hinv.clos_eq x).symm
  have hpresF : ∀ d, d ∈ s.completed →
      lookup (s.results ++ pending.map (fun u => (u.id, depFailResult))) d =
        lookup s.results d := by
    intro d hd
    exact lookup_append_of_mem _ _ d (by rw [hinv.keys_eq]; exact hd)
  refine
    { keys_perm := ?_, res_ok := ?_, res_fail := ?_, disp_present := ?_
      disp_ok := ?_, wf_sorted := ?_, wf_le100 := ?_ }
  · rw [hkeysF]
    have hnodupF : (s.completed ++ pending.map AgentTask.id).Nodup := by
      rw [List.nodup_append]
      refine ⟨hinv.comp_nodup, hpnodup, ?_⟩
      intro a ha hb
      rcases List.mem_map.mp hb with ⟨u, hu, rfl⟩
      exact hinv.pend_fresh u hu ha
    rw [List.perm_ext_iff_of_nodup hnodupF hids]
    intro a
    constructor
    · intro hmem
      rcases List.mem_append.mp hmem with hold | hnew
      · exact hinv.comp_mem a hold
      · rcases List.mem_map.mp hnew with ⟨u, hu, rfl⟩
        exact List.mem_map.mpr ⟨u, hpendtasks u hu, rfl⟩
    · intro hmem
      rcases List.mem_map.mp hmem with ⟨t, ht, rfl⟩
      rcases hinv.cover t ht with hold | hpend
      · exact List.mem_append_left _ hold
      · exact List.mem_append_right _ (List.mem_map.mpr ⟨t, hpend, rfl⟩)
  · intro t ht hc
    have hcomp := (hclosF t.id).mp hc
    have hdeps := hinv.comp_deps t ht hcomp
    rw [hpresF t.id hcomp,
      prevResultsArray_congr _ _ _ (fun d hd => hpresF d (hdeps d hd))]
    exact hinv.res_char t ht hcomp
  · intro t ht hc
    have hncomp : t.id ∉ s.completed := fun hmem => hc ((hclosF t.id).mpr hmem)
    rcases hinv.cover t ht with hold | hpend
    · exact absurd hold hncomp
    · rw [lookup_append_of_not_mem _ _ t.id
        (by rw [hinv.keys_eq]; exact hncomp)]
      exact lookup_map_const pending t.id (List.mem_map.mpr ⟨t, hpend, rfl⟩)
  · intro t ht hc
    exact List.mem_append_left _
      (hinv.disp_evt t ht ((hclosF t.id).mp hc))
  · apply DispatchOK_append wid tasks _ _ hinv.disp_ok
    intro u hu hmem
    rcases List.mem_map.mp hmem with ⟨v, _, hev⟩
    have := congrArg WorkflowProgress.status hev
    simp [dispatchEvent, stallEvent] at this
  · have hchunk : wfProgressValues (List.map (stallEvent wid) pending) = [] := by
      apply wfProgressValues_eq_nil
      intro e he
      rcases List.mem_map.mp he with ⟨v, hv, rfl⟩
      exact hsent v (hpendtasks v hv)
    rw [wfProgressValues_append, hchunk, List.append_nil]
    exact hinv.wf_sorted
  · have hchunk : wfProgressValues (List.map (stallEvent wid) pending) = [] := by
      apply wfProgressValues_eq_nil
      intro e he
      rcases List.mem_map.mp he with ⟨u, hu, rfl⟩
      exact hsent u (hpendtasks u hu)
    intro v hv
    rw [wfProgressValues_append, hchunk, List.append_nil] at hv
    exact (hinv.wf_bound v hv).trans (roundPct_le_100 _ _ hlen)

theorem runBatch_eq (transport : AIRequest → FetchOutcome) (wid : String)
    (total : Nat) (ready order : List AgentTask) (s : ExecState) :
    runBatch transport wid total ready order s =
      settleFold wid total
        (fun t => apiOf transport t (prevResultsArray s.results t.dependencies))
        order { s with trace := s.trace ++ ready.map (dispatchEvent wid) } := rfl

theorem execLoop_succ (transport : AIRequest → FetchOutcome)
    (sched : Nat → AgentTask → Nat) (wid : String) (total : Nat) (fuel : Nat)
    (pending : List AgentTask) (i : Nat) (s : ExecState)
    (hpe : pending ≠ []) :
    execLoop transport sched wid total (fuel + 1) pending i s =
      (if (runBatch transport wid total
            (pending.filter (fun t => depsMet s.completed t))
            (orderByKey (sched i) (pending.filter (fun t => depsMet s.completed t)))
            s).completed.length = s.completed.length ∧
          pending.filter (fun t => !(depsMet s.completed t)) ≠ [] then
        stallFail wid (pending.filter (fun t => !(depsMet s.completed t)))
          (runBatch transport wid total
            (pending.filter (fun t => depsMet s.completed t))
            (orderByKey (sched i) (pending.filter (fun t => depsMet s.completed t)))
            s)
      else if pending.filter (fun t => !(depsMet s.completed t)) = [] then
        runBatch transport wid total
          (pending.filter (fun t => depsMet s.completed t))
          (orderByKey (sched i) (pending.filter (fun t => depsMet s.completed t)))
          s
      else
        execLoop transport sched wid total fuel
          (pending.filter (fun t => !(depsMet s.completed t))) (i + 1)
          (runBatch transport wid total
            (pending.filter (fun t => depsMet s.completed t))
            (orderByKey (sched i) (pending.filter (fun t => depsMet s.completed t)))
            s)) := by
  rw [execLoop, if_neg hpe]

theorem execLoop_post (transport : AIRequest → FetchOutcome)
    (sched : Nat → AgentTask → Nat) (wid : String) (tasks : List AgentTask)
    (hids : idsNodup tasks) (hsent : noSentinelId tasks) :
    ∀ fuel pending i s, pending.length < fuel →
      ExecInv transport wid tasks i pending s →
      ExecPost transport wid tasks
        (execLoop transport sched wid tasks.length fuel pending i s) := by
  intro fuel
  induction fuel with
  | zero =>
    intro pending i s h _
    exact absurd h (Nat.not_lt_zero _)
  | succ fuel ih =>
    intro pending i s hlt hinv
    by_cases hpe : pending = []
    · rw [execLoop, if_pos hpe]
      apply execPost_of_covered transport wid tasks hids i pending s hinv
      intro t ht
      rcases hinv.cover t ht with h | h
      · exact h
      · rw [hpe] at h
        simp at h
    · rw [execLoop_succ transport sched wid tasks.length fuel pending i s hpe]
      have hb0 := batchInv_start transport sched wid tasks hids hsent i pending s hinv
      obtain ⟨hbF, hcompF⟩ := settleFold_spec transport wid tasks hids hsent
        (fun t => apiOf transport t (prevResultsArray s.results t.dependencies))
        (orderByKey (sched i) (pending.filter (fun t => depsMet s.completed t)))
        { s with trace := s.trace ++ List.map (dispatchEvent wid) (pending.filter (fun t => depsMet s.completed t)) } hb0
      have hcomp' : (runBatch transport wid tasks.length
          (pending.filter (fun t => depsMet s.completed t))
          (orderByKey (sched i) (pending.filter (fun t => depsMet s.completed t)))
          s).completed = s.completed ++
            (orderByKey (sched i)
              (pending.filter (fun t => depsMet s.completed t))).map AgentTask.id := by
        rw [runBatch_eq]
        exact hcompF
      have hbF' : BatchInv transport wid tasks
          (fun t => apiOf transport t (prevResultsArray s.results t.dependencies)) []
          (runBatch transport wid tasks.length
            (pending.filter (fun t => depsMet s.completed t))
            (orderByKey (sched i) (pending.filter (fun t => depsMet s.completed t)))
            s) := by
        rw [runBatch_eq]
        exact hbF
      by_cases hguard : (runBatch transport wid tasks.length
          (pending.filter (fun t => depsMet s.completed t))
          (orderByKey (sched i) (pending.filter (fun t => depsMet s.completed t)))
          s).completed.length = s.completed.length ∧
            pending.filter (fun t => !(depsMet s.completed t)) ≠ []
      · rw [if_pos hguard]
        have hordernil : orderByKey (sched i)
            (pending.filter (fun t => depsMet s.completed t)) = [] := by
          have hlen2 := congrArg List.length hcomp'
          rw [hguard.1] at hlen2
          simp only [List.length_append, List.length_map] at hlen2
          have : (orderByKey (sched i)
              (pending.filter (fun t => depsMet s.completed t))).length = 0 := by
            omega
          exact List.eq_nil_of_length_eq_zero this
        have hreadynil : pending.filter (fun t => depsMet s.completed t) = [] :=
          orderByKey_eq_nil _ _ hordernil
        have hpende : pending.filter (fun t => !(depsMet s.completed t)) = pending :=
          filter_not_of_filter_nil _ _ hreadynil
        have hs'eq : runBatch transport wid tasks.length
            (pending.filter (fun t => depsMet s.completed t))
            (orderByKey (sched i) (pending.filter (fun t => depsMet s.completed t)))
            s = s := by
          rw [runBatch_eq, hordernil, hreadynil]
          simp [settleFold]
        rw [hpende, hs'eq]
        exact execPost_of_stall transport wid tasks hids hsent i pending s hinv
          hreadynil
      · rw [if_neg hguard]
        have hreadyne : pending.filter (fun t => depsMet s.completed t) ≠ [] ∨
            pending.filter (fun t => !(depsMet s.completed t)) ≠ [] := by
          cases pending with
          | nil => exact absurd rfl hpe
          | cons a rest =>
            by_cases hda : depsMet s.completed a = true
            · apply Or.inl
              have hmem : a ∈ List.filter (fun t => depsMet s.completed t) (a :: rest) :=
                List.mem_filter.mpr ⟨List.mem_cons_self _ _, hda⟩
              exact List.ne_nil_of_mem hmem
            · apply Or.inr
              have hmem : a ∈ List.filter (fun t => !(depsMet s.completed t)) (a :: rest) :=
                List.mem_filter.mpr ⟨List.mem_cons_self _ _, by simpa using hda⟩
              exact List.ne_nil_of_mem hmem
        by_cases hpe' : pending.filter (fun t => !(depsMet s.completed t)) = []
        · rw [if_pos hpe']
          have hreadyne' : pending.filter (fun t => depsMet s.completed t) ≠ [] := by
            rcases hreadyne with h | h
            · exact h
            · exact absurd hpe' h
          have horderne : orderByKey (sched i)
              (pending.filter (fun t => depsMet s.completed t)) ≠ [] := by
            intro h
            exact hreadyne' (orderByKey_eq_nil _ _ h)
          have hinv' := execInv_next transport wid tasks hids i pending s _
            (fun t => apiOf transport t (prevResultsArray s.results t.dependencies))
            (orderByKey (sched i) (pending.filter (fun t => depsMet s.completed t)))
            hinv hbF' (orderByKey_perm _ _) hcomp' horderne
          apply execPost_of_covered transport wid tasks hids (i + 1) _ _ hinv'
          intro t ht
          rcases hinv'.cover t ht with h | h
          · exact h
          · rw [hpe'] at h
            simp at h
        · rw [if_neg hpe']
          have horderne : orderByKey (sched i)
              (pending.filter (fun t => depsMet s.completed t)) ≠ [] := by
            intro h
            apply hguard
            refine ⟨?_, hpe'⟩
            rw [hcomp', h]
            simp
          have hinv' := execInv_next transport wid tasks hids i pending s _
            (fun t => apiOf transport t (prevResultsArray s.results t.dependencies))
            (orderByKey (sched i) (pending.filter (fun t => depsMet s.completed t)))
            hinv hbF' (orderByKey_perm _ _) hcomp' horderne
          have hready_wit : ∃ u ∈ pending, depsMet s.completed u = true := by
            have hne : pending.filter (fun t => depsMet s.completed t) ≠ [] := by
              intro h
              exact horderne (by rw [h]; rfl)
            cases hfe : pending.filter (fun t => depsMet s.completed t) with
            | nil => exact absurd hfe hne
            | cons u rest =>
              have hu : u ∈ pending.filter (fun t => depsMet s.completed t) := by
                rw [hfe]
                exact List.mem_cons_self _ _
              exact ⟨u, (List.mem_filter.mp hu).1, (List.mem_filter.mp hu).2⟩
          rcases hready_wit with ⟨u, hu, hdu⟩
          have hlt' : (pending.filter (fun t => !(depsMet s.completed t))).length <
              pending.length := by
            have := filter_not_length_lt (fun t => depsMet s.completed t) pending u hu hdu
            exact this
          exact ih _ (i + 1) _ (by omega) hinv'

theorem execInv_init (transport : AIRequest → FetchOutcome) (wid : String)
    (tasks : List AgentTask) (hsent : noSentinelId tasks) :
    ExecInv transport wid tasks 0 tasks ⟨[], [], [initialEvent wid]⟩ := by
  refine
    { pend_sub := List.Sublist.refl tasks
      keys_eq := rfl
      pend_fresh := fun t _ h => by simp at h
      cover := fun t ht => Or.inr ht
      comp_mem := fun x hx => by simp at hx
      comp_nodup := List.nodup_nil
      iter_le := Nat.le_refl 0
      clos_eq := fun x => Iff.rfl
      comp_deps := fun t _ h => by simp at h
      res_char := fun t _ h => by simp at h
      settled_evt := fun x hx => by simp at hx
      disp_evt := fun t _ h => by simp at h
      disp_ok := ?_
      wf_sorted := ?_
      wf_bound := ?_ }
  · intro t ht pre post heq d hd
    cases pre with
    | nil =>
      simp only [List.nil_append] at heq
      have hhead : initialEvent wid = dispatchEvent wid t := by
        have := congrArg List.head? heq
        simpa using this
      have := congrArg WorkflowProgress.stepId hhead
      simp only [initialEvent, dispatchEvent] at this
      exact absurd this.symm (hsent t ht)
    | cons x pre' =>
      have := congrArg List.length heq
      simp at this
  · rw [wfProgressValues_keep _ (by simp [initialEvent])]
    exact List.pairwise_singleton _ _
  · intro v hv
    rw [wfProgressValues_keep _ (by simp [initialEvent])] at hv
    have : v = (initialEvent wid).progress := by simpa using hv
    rw [this]
    simp [initialEvent]

theorem executeWorkflow_spec (transport : AIRequest → FetchOutcome)
    (sched : Nat → AgentTask → Nat) (wid : String) (tasks : List AgentTask)
    (hids : idsNodup tasks) (hsent : noSentinelId tasks) :
    WorkflowSpec transport wid tasks
      (executeWorkflow transport sched wid tasks).1
      (executeWorkflow transport sched wid tasks).2 := by
  have hpost := execLoop_post transport sched wid tasks hids hsent
    (tasks.length + 1) tasks 0 ⟨[], [], [initialEvent wid]⟩
    (Nat.lt_succ_self _) (execInv_init transport wid tasks hsent)
  have h1 : (executeWorkflow transport sched wid tasks).1 =
      (execLoop transport sched wid tasks.length (tasks.length + 1) tasks 0
        ⟨[], [], [initialEvent wid]⟩).results := rfl
  have h2 : (executeWorkflow transport sched wid tasks).2 =
      (execLoop transport sched wid tasks.length (tasks.length + 1) tasks 0
        ⟨[], [], [initialEvent wid]⟩).trace ++ [finalEvent wid] := rfl
  rw [h1, h2]
  have hfinalvals : wfProgressValues [finalEvent wid] = [(100 : Nat)] := by
    rw [wfProgressValues_keep _ (by simp [finalEvent])]
    rfl
  refine
    { keys_perm := hpost.keys_perm
      res_ok := hpost.res_ok
      res_fail := hpost.res_fail
      disp_present := fun t ht hc => List.mem_append_left _ (hpost.disp_present t ht hc)
      disp_ok := ?_
      wf_sorted := ?_
      wf_le100 := ?_
      last_eq := List.getLast?_concat _
      hundred_mem := ?_ }
  · apply DispatchOK_append wid tasks _ _ hpost.disp_ok
    intro u hu hmem
    have he : dispatchEvent wid u = finalEvent wid := by simpa using hmem
    have := congrArg WorkflowProgress.stepId he
    simp only [dispatchEvent, finalEvent] at this
    exact hsent u hu this
  · rw [wfProgressValues_append, hfinalvals]
    refine List.pairwise_append.mpr
      ⟨hpost.wf_sorted, List.pairwise_singleton _ _, ?_⟩
    intro a ha b hb
    have : b = 100 := by simpa using hb
    rw [this]
    exact hpost.wf_le100 a ha
  · intro v hv
    rw [wfProgressValues_append, hfinalvals] at hv
    rcases List.mem_append.mp hv with hold | hnew
    · exact hpost.wf_le100 v hold
    · have : v = 100 := by simpa using hnew
      omega
  · rw [wfProgressValues_append, hfinalvals]
    exact List.mem_append_right _ (List.mem_cons_self _ _)

/-! ## Helper lemmas: the fence splitter -/

theorem splitFenceAux_seg (seg : List Char) (hseg : '`' ∉ seg) :
    ∀ l acc, splitFenceAux (seg ++ l) (.copy 0 acc) =
      splitFenceAux l (.copy 0 (seg.reverse ++ acc)) := by
  induction seg with
  | nil => intro l acc; simp
  | cons c rest ih =>
    intro l acc
    have hc : c ≠ '`' := fun h => hseg (h ▸ List.mem_cons_self _ _)
    have hrest : '`' ∉ rest := fun h => hseg (List.mem_cons_of_mem _ h)
    show splitFenceAux (c :: (rest ++ l)) (.copy 0 acc) = _
    rw [splitFenceAux, if_neg hc]
    rw [ih hrest l (c :: (List.replicate 0 '`' ++ acc))]
    simp

theorem splitFenceAux_fence_word (w : List Char)
    (hw : ∀ c ∈ w, isWordChar c = true) :
    ∀ l, splitFenceAux (w ++ l) .fence = splitFenceAux l .fence := by
  induction w with
  | nil => intro l; simp
  | cons c rest ih =>
    intro l
    show splitFenceAux (c :: (rest ++ l)) .fence = _
    rw [splitFenceAux, if_pos (hw c (List.mem_cons_self _ _))]
    exact ih (fun c hc => hw c (List.mem_cons_of_mem _ hc)) l

theorem splitFenceAux_fence (w : List Char)
    (hw : ∀ c ∈ w, isWordChar c = true) (l acc : List Char) :
    splitFenceAux ('`' :: '`' :: '`' :: (w ++ '\n' :: l)) (.copy 0 acc) =
      acc.reverse :: splitFenceAux l (.copy 0 []) := by
  rw [splitFenceAux, if_pos rfl, if_neg (by omega)]
  rw [splitFenceAux, if_pos rfl, if_neg (by omega)]
  rw [splitFenceAux, if_pos rfl, if_pos rfl]
  rw [splitFenceAux_fence_word w hw ('\n' :: l)]
  rw [splitFenceAux]
  have h1 : isWordChar '\n' = false := by decide
  rw [h1]
  simp

theorem splitFenceAux_last (seg : List Char) (hseg : '`' ∉ seg) (acc : List Char) :
    splitFenceAux seg (.copy 0 acc) = [acc.reverse ++ seg] := by
  have := splitFenceAux_seg seg hseg [] acc
  rw [List.append_nil] at this
  rw [this, splitFenceAux]
  simp

/-- A fence of the payload grammar: three backticks, a word-character run
(language tag), a newline. -/
theorem splitFence_two_blocks (h1 c1 h2 c2 t w1 w2 w3 w4 : List Char)
    (hh1 : '`' ∉ h1) (hc1 : '`' ∉ c1) (hh2 : '`' ∉ h2) (hc2 : '`' ∉ c2)
    (ht : '`' ∉ t)
    (hw1 : ∀ c ∈ w1, isWordChar c = true) (hw2 : ∀ c ∈ w2, isWordChar c = true)
    (hw3 : ∀ c ∈ w3, isWordChar c = true) (hw4 : ∀ c ∈ w4, isWordChar c = true) :
    splitFenceAux
      (h1 ++ ('`' :: '`' :: '`' :: (w1 ++ '\n' :: (c1 ++
        ('`' :: '`' :: '`' :: (w2 ++ '\n' :: (h2 ++
          ('`' :: '`' :: '`' :: (w3 ++ '\n' :: (c2 ++
            ('`' :: '`' :: '`' :: (w4 ++ '\n' :: t)))))))))))) (.copy 0 []) =
      [h1, c1, h2, c2, t] := by
  rw [splitFenceAux_seg h1 hh1, splitFenceAux_fence w1 hw1]
  rw [splitFenceAux_seg c1 hc1, splitFenceAux_fence w2 hw2]
  rw [splitFenceAux_seg h2 hh2, splitFenceAux_fence w3 hw3]
  rw [splitFenceAux_seg c2 hc2, splitFenceAux_fence w4 hw4]
  rw [splitFenceAux_last t ht]
  simp

/-! ## Claims -/

/-- C1: for every finite task graph whose dependency edges are acyclic and
whose dependency ids all name tasks of the graph (together with the data
model's well-formedness: ids unique, no id equal to the aggregate sentinel
`"workflow"`), `executeWorkflow` terminates (it is a total function of the
embedding) and its result map holds exactly one `AgentTaskResult` per task
id: its key list is a permutation of the task-id list. -/
theorem C1_acyclic_total_results (transport : AIRequest → FetchOutcome)
    (sched : Nat → AgentTask → Nat) (wid : String) (tasks : List AgentTask)
    (hids : idsNodup tasks) (hdeps : depsClosed tasks)
    (hacyc : acyclicGraph tasks) (hsent : noSentinelId tasks) :
    ((executeWorkflow transport sched wid tasks).1.map Prod.fst).Perm
      (tasks.map AgentTask.id) :=
  (executeWorkflow_spec transport sched wid tasks hids hsent).keys_perm

/-- Witness for C1 on the concrete acyclic graph `A`, `B ← A`,
`C ← A, B`. -/
theorem C1_witness :
    idsNodup [exTaskA, exTaskB, exTaskC] ∧
    depsClosed [exTaskA, exTaskB, exTaskC] ∧
    acyclicGraph [exTaskA, exTaskB, exTaskC] ∧
    noSentinelId [exTaskA, exTaskB, exTaskC] ∧
    ((executeWorkflow exTransportOk exSched "w1" [exTaskA, exTaskB, exTaskC]).1.map
      Prod.fst).Perm ([exTaskA, exTaskB, exTaskC].map AgentTask.id) :=
  ⟨by decide, by decide, by decide, by decide,
    C1_acyclic_total_results exTransportOk exSched "w1" [exTaskA, exTaskB, exTaskC]
      (by decide) (by decide) (by decide) (by decide)⟩

/-- C3 counterexample: in the graph `A ↔ B` (a 2-cycle) plus `C ← A`
with an always-succeeding invoker, the task `C` — outside the cycle — does
not receive its normal (successful) invocation result: it is stored as the
dependency failure, so "no task outside those N is affected" is false as
stated. -/
theorem C3_counterexample :
    lookup (executeWorkflow exTransportOk exSched "w" [exCycA, exCycB, exCycC]).1
      "C" = some depFailResult ∧
    depFailResult.success = false ∧
    (callAIAPI exTransportOk (mkRequest exCycC [])).success = true := by
  refine ⟨by decide, by decide, by decide⟩

/-- C3 as amended: the cyclic tasks and every task transitively depending
on them resolve to the dependency-unmet failure; every task whose
transitive dependencies contain no cycle (the dependency fixpoint) still
receives its own invocation's result; and the executor never throws — it
returns a full result map with exactly one entry per task id. -/
theorem C3_cycle_containment (transport : AIRequest → FetchOutcome)
    (sched : Nat → AgentTask → Nat) (wid : String) (tasks : List AgentTask)
    (hids : idsNodup tasks) (hsent : noSentinelId tasks) :
    (∀ t ∈ tasks, t.id ∉ closure tasks →
      lookup (executeWorkflow transport sched wid tasks).1 t.id =
        some depFailResult) ∧
    (∀ t ∈ tasks, t.id ∈ closure tasks →
      ∃ prevs, lookup (executeWorkflow transport sched wid tasks).1 t.id =
        some (apiOf transport t prevs)) ∧
    ((executeWorkflow transport sched wid tasks).1.map Prod.fst).Perm
      (tasks.map AgentTask.id) := by
  have hspec := executeWorkflow_spec transport sched wid tasks hids hsent
  exact ⟨hspec.res_fail,
    fun t ht hc => ⟨_, hspec.res_ok t ht hc⟩,
    hspec.keys_perm⟩

/-- Witness for C3 (amended) on the two-task cycle `A ↔ B`: `A` is not in
the dependency fixpoint and resolves to the dependency failure. -/
theorem C3_witness :
    lookup (executeWorkflow exTransportOk exSched "w2" [exCycA, exCycB]).1 "A" =
      some depFailResult :=
  (C3_cycle_containment exTransportOk exSched "w2" [exCycA, exCycB]
      (by decide) (by decide)).1 exCycA (by decide) (by decide)

/-- C4 counterexample: for the one-task graph with a succeeding invoker,
the aggregate (`stepId = "workflow"`) progress sequence is `[0, 100, 100]`
— the value 100 is emitted twice (once by the settlement of the last task,
once by the final completion event), so "exactly once" is false. -/
theorem C4_counterexample :
    ¬ ((wfProgressValues
        (executeWorkflow exTransportOk exSched "w" [exTaskA]).2).count 100 = 1) ∧
    wfProgressValues (executeWorkflow exTransportOk exSched "w" [exTaskA]).2 =
      [0, 100, 100] := by
  refine ⟨by decide, by decide⟩

/-- C4 as amended: within one `executeWorkflow` invocation the
`stepId = "workflow"` progress values are monotonically non-decreasing and
reach 100 at least once (possibly twice: at the last settlement and in the
final completion event); the final event of the run is the aggregate
completed event with progress 100, emitted after every task settlement. -/
theorem C4_workflow_progress_monotone (transport : AIRequest → FetchOutcome)
    (sched : Nat → AgentTask → Nat) (wid : String) (tasks : List AgentTask)
    (hids : idsNodup tasks) (hsent : noSentinelId tasks) :
    (wfProgressValues (executeWorkflow transport sched wid tasks).2).Sorted
      (· ≤ ·) ∧
    100 ∈ wfProgressValues (executeWorkflow transport sched wid tasks).2 ∧
    (executeWorkflow transport sched wid tasks).2.getLast? =
      some (finalEvent wid) := by
  have hspec := executeWorkflow_spec transport sched wid tasks hids hsent
  exact ⟨hspec.wf_sorted, hspec.hundred_mem, hspec.last_eq⟩

/-- Witness for C4 (amended) on the concrete graph `A`, `B ← A`. -/
theorem C4_witness :
    (wfProgressValues
      (executeWorkflow exTransportOk exSched "w4" [exTaskA, exTaskB]).2).Sorted
        (· ≤ ·) ∧
    100 ∈ wfProgressValues
      (executeWorkflow exTransportOk exSched "w4" [exTaskA, exTaskB]).2 ∧
    (executeWorkflow exTransportOk exSched "w4" [exTaskA, exTaskB]).2.getLast? =
      some (finalEvent "w4") :=
  C4_workflow_progress_monotone exTransportOk exSched "w4" [exTaskA, exTaskB]
    (by decide) (by decide)

/-- C6: during any `executeWorkflow` run, wherever a task's dispatch
(`running`) event occurs in the trace, every one of its dependency ids has
an earlier terminal (`completed`/`failed`) event — i.e. a stored result —
so a task is never dispatched before all of its dependencies have a
stored result. -/
theorem C6_dispatch_after_dependencies (transport : AIRequest → FetchOutcome)
    (sched : Nat → AgentTask → Nat) (wid : String) (tasks : List AgentTask)
    (hids : idsNodup tasks) (hsent : noSentinelId tasks) :
    DispatchOK wid tasks (executeWorkflow transport sched wid tasks).2 :=
  (executeWorkflow_spec transport sched wid tasks hids hsent).disp_ok

/-- Witness for C6 on the concrete graph `A`, `B ← A`, `C ← A, B`. -/
theorem C6_witness :
    DispatchOK "w6" [exTaskA, exTaskB, exTaskC]
      (executeWorkflow exTransportOk exSched "w6" [exTaskA, exTaskB, exTaskC]).2 :=
  C6_dispatch_after_dependencies exTransportOk exSched "w6"
    [exTaskA, exTaskB, exTaskC] (by decide) (by decide)

/-- C9: readiness counts failed settlements the same as successful ones —
the dependency fixpoint `closure` is success-agnostic — so a task all of
whose dependencies settled (some possibly as failures) is still
dispatched, and the stored result is its invocation's result where the
prior-results context is exactly `prevResultsArray`: the contents of the
successful dependency results only, in dependency-list order. -/
theorem C9_failed_dependencies_still_dispatch
    (transport : AIRequest → FetchOutcome) (sched : Nat → AgentTask → Nat)
    (wid : String) (tasks : List AgentTask) (hids : idsNodup tasks)
    (hsent : noSentinelId tasks) :
    ∀ t ∈ tasks, t.id ∈ closure tasks →
      dispatchEvent wid t ∈ (executeWorkflow transport sched wid tasks).2 ∧
      lookup (executeWorkflow transport sched wid tasks).1 t.id =
        some (apiOf transport t
          (prevResultsArray (executeWorkflow transport sched wid tasks).1
            t.dependencies)) := by
  have hspec := executeWorkflow_spec transport sched wid tasks hids hsent
  exact fun t ht hc => ⟨hspec.disp_present t ht hc, hspec.res_ok t ht hc⟩

/-- Witness for C9: `B ← A` where `A`'s invocation fails at the transport
level; `B` is still dispatched and its prior-results context is empty
(the failed dependency's content is excluded). -/
theorem C9_witness :
    (dispatchEvent "w9" exTaskB ∈
      (executeWorkflow exTransportMixed exSched "w9" [exTaskA, exTaskB]).2 ∧
    lookup (executeWorkflow exTransportMixed exSched "w9" [exTaskA, exTaskB]).1
        exTaskB.id =
      some (apiOf exTransportMixed exTaskB
        (prevResultsArray
          (executeWorkflow exTransportMixed exSched "w9" [exTaskA, exTaskB]).1
          exTaskB.dependencies))) ∧
    (lookup (executeWorkflow exTransportMixed exSched "w9" [exTaskA, exTaskB]).1
      "A").map AgentTaskResult.success = some false ∧
    prevResultsArray
      (executeWorkflow exTransportMixed exSched "w9" [exTaskA, exTaskB]).1
      exTaskB.dependencies = [] :=
  ⟨C9_failed_dependencies_still_dispatch exTransportMixed exSched "w9"
      [exTaskA, exTaskB] (by decide) (by decide) exTaskB (by decide) (by decide),
    by decide, by decide⟩

/-- C10: `parseCodeChanges` only ever emits the `update` action: every
change it pushes is built with `action: 'update'`. -/
theorem C10_parser_always_update (s : String) :
    ∀ c ∈ parseCodeChanges s, c.action = ChangeAction.update := by
  intro c hc
  unfold parseCodeChanges at hc
  rw [List.mem_filterMap] at hc
  obtain ⟨hc2, _, heq⟩ := hc
  cases hext : extractPath hc2.1 with
  | none => rw [hext] at heq; simp at heq
  | some cap =>
    rw [hext] at heq
    simp only [Option.some.injEq] at heq
    rw [← heq]

/-- Witness for C10 on the concrete develop payload. -/
theorem C10_witness :
    (CodeChange.mk "README.md" "hello world" ChangeAction.update).action =
      ChangeAction.update :=
  C10_parser_always_update exDevContent
    (CodeChange.mk "README.md" "hello world" ChangeAction.update) (by decide)

/-- C8: when the completion-endpoint call fails (transport throw or non-ok
response), `callAIAPI` returns a failed result with a populated error
field — the `catch` converts every thrown error into data — and no
exception reaches the executor: with any such transport the executor still
returns a full result map, one entry per task id. -/
theorem C8_invoker_contains_failures (transport : AIRequest → FetchOutcome)
    (req : AIRequest) (hfail : (transport req).isFailure = true) :
    ((callAIAPI transport req).success = false ∧
      (callAIAPI transport req).error.isSome = true) ∧
    ∀ (sched : Nat → AgentTask → Nat) (wid : String) (tasks : List AgentTask),
      idsNodup tasks → noSentinelId tasks →
      ((executeWorkflow transport sched wid tasks).1.map Prod.fst).Perm
        (tasks.map AgentTask.id) := by
  constructor
  · unfold callAIAPI callAIAPIBody
    cases htr : transport req with
    | throws msg => simp
    | notOk errField =>
      cases errField with
      | none => simp
      | some e =>
        by_cases he : e = ""
        · simp [he]
        · simp [he]
    | ok r =>
      rw [htr] at hfail
      simp [FetchOutcome.isFailure] at hfail
  · intro sched wid tasks hids hsent
    exact (executeWorkflow_spec transport sched wid tasks hids hsent).keys_perm

/-- Witness for C8 with an always-throwing transport. -/
theorem C8_witness :
    (callAIAPI exTransportThrows exReq).success = false ∧
    (callAIAPI exTransportThrows exReq).error.isSome = true :=
  (C8_invoker_contains_failures exTransportThrows exReq (by decide)).1

/-- C7: a develop-stage payload of the shape
`hint₁ ⟨fence⟩ code₁ ⟨fence⟩ hint₂ ⟨fence⟩ code₂ ⟨fence⟩ trailing` — two
fenced code blocks, each immediately preceded by a (distinct) file-path
hint, no stray backticks — parses into exactly two `update` changes whose
paths are the extracted hints and whose contents are the fenced block
bodies, both trimmed. -/
theorem C7_two_blocks_parse (s : String)
    (h1 c1 h2 c2 t w1 w2 w3 w4 p1 p2 : List Char)
    (hs : s.data = h1 ++ ('`' :: '`' :: '`' :: (w1 ++ '\n' :: (c1 ++
        ('`' :: '`' :: '`' :: (w2 ++ '\n' :: (h2 ++
          ('`' :: '`' :: '`' :: (w3 ++ '\n' :: (c2 ++
            ('`' :: '`' :: '`' :: (w4 ++ '\n' :: t))))))))))))
    (hh1 : '`' ∉ h1) (hc1 : '`' ∉ c1) (hh2 : '`' ∉ h2) (hc2 : '`' ∉ c2)
    (ht : '`' ∉ t)
    (hw1 : ∀ c ∈ w1, isWordChar c = true) (hw2 : ∀ c ∈ w2, isWordChar c = true)
    (hw3 : ∀ c ∈ w3, isWordChar c = true) (hw4 : ∀ c ∈ w4, isWordChar c = true)
    (hne1 : h1 ≠ []) (hnec1 : c1 ≠ []) (hne2 : h2 ≠ []) (hnec2 : c2 ≠ [])
    (hp1 : extractPath h1 = some p1) (hp2 : extractPath h2 = some p2)
    (hdist : (jsTrim p1).asString ≠ (jsTrim p2).asString) :
    parseCodeChanges s =
      [{ path := (jsTrim p1).asString, content := (jsTrim c1).asString
         action := ChangeAction.update },
       { path := (jsTrim p2).asString, content := (jsTrim c2).asString
         action := ChangeAction.update }] := by
  have hempty : ∀ (l : List Char), l ≠ [] → (!l.isEmpty) = true := by
    intro l hl
    cases l with
    | nil => exact absurd rfl hl
    | cons a rest => rfl
  unfold parseCodeChanges splitFenceBlocks
  rw [hs, splitFence_two_blocks h1 c1 h2 c2 t w1 w2 w3 w4 hh1 hc1 hh2 hc2 ht
    hw1 hw2 hw3 hw4]
  rw [List.filter_cons, if_pos (hempty h1 hne1),
    List.filter_cons, if_pos (hempty c1 hnec1),
    List.filter_cons, if_pos (hempty h2 hne2),
    List.filter_cons, if_pos (hempty c2 hnec2)]
  cases t with
  | nil =>
    show (pairBlocks [h1, c1, h2, c2]).filterMap _ = _
    show ((h1, c1) :: (h2, c2) :: pairBlocks []).filterMap _ = _
    simp only [pairBlocks, List.filterMap_cons, hp1, hp2, List.filterMap_nil]
  | cons a rest =>
    show (pairBlocks [h1, c1, h2, c2, a :: rest]).filterMap _ = _
    show ((h1, c1) :: (h2, c2) :: pairBlocks [a :: rest]).filterMap _ = _
    simp only [pairBlocks, List.filterMap_cons, hp1, hp2, List.filterMap_nil]

/-- Witness for C7 on a concrete two-block payload. -/
theorem C7_witness :
    parseCodeChanges
        "File: a.ts\n```ts\nlet x=1\n```\nPath: b.md\n```\nhi\n```\n" =
      [{ path := "a.ts", content := "let x=1"
         action := ChangeAction.update },
       { path := "b.md", content := "hi"
         action := ChangeAction.update }] :=
  C7_two_blocks_parse
    "File: a.ts\n```ts\nlet x=1\n```\nPath: b.md\n```\nhi\n```\n"
    "File: a.ts\n".data "let x=1\n".data "Path: b.md\n".data "hi\n".data
    [] "ts".data [] [] [] "a.ts".data "b.md".data
    (by decide) (by decide) (by decide) (by decide) (by decide) (by decide)
    (by decide) (by decide) (by decide) (by decide) (by decide) (by decide)
    (by decide) (by decide) (by decide) (by decide) (by decide)

/-- C2 (code bug): a matching run first observed `in_progress` is recorded
in `lastRunId`; every later poll only matches runs with a strictly larger
id, so the run's later `completed`/`success` state is never observed and
the monitor throws its timeout error although the claim (and the spec)
promise a success return. -/
theorem C2_monitor_never_sees_completion :
    exPollsC2 2 = PollOutcome.ok [exRunDone] ∧
    exRunDone.status = "completed" ∧
    exRunDone.conclusion = some "success" ∧
    (monitorDeployment exPollsC2 (fun _ => 0) 0 "w" 20000).1 =
      Except.error "Deployment monitoring timeout" :=
  ⟨rfl, rfl, rfl, rfl⟩

/-! ## C5: the repository workflow under a monitor timeout -/

theorem commitLoop_all_ok (env : GitHubEnv) (wid : String) (total : Nat)
    (hok : ∀ i, env.commitFile i = GHResp.ok ()) :
    ∀ (changes : List CodeChange) (idx : Nat) (tr : List WorkflowProgress)
      (cs : List GHCall), ∃ tr',
      commitLoop env wid total changes idx tr cs =
        Except.ok (tr', cs ++ changes.map (fun ch => GHCall.commit ch.path)) := by
  intro changes
  induction changes with
  | nil =>
    intro idx tr cs
    exact ⟨tr, by simp [commitLoop]⟩
  | cons ch rest ih =>
    intro idx tr cs
    unfold commitLoop
    rw [hok idx]
    dsimp only
    obtain ⟨tr', heq⟩ := ih (idx + 1)
      (tr ++
        [{ workflowId := wid, stepId := "commit-file-" ++ toString idx
           agentId := "system", status := PStatus.running
           progress := roundDiv (45 * total + 35 * (idx + 1)) total
           message := "📄 Committing file " ++ toString (idx + 1) ++ "/" ++
             toString total ++ ": " ++ ch.path }] ++
        [{ workflowId := wid, stepId := "commit-file-" ++ toString idx
           agentId := "system", status := PStatus.completed
           progress := roundDiv (45 * total + 35 * (idx + 1)) total
           message := "✅ Committed: " ++ ch.path }])
      (cs ++ [GHCall.commit ch.path])
    refine ⟨tr', ?_⟩
    rw [heq]
    simp

theorem ghTryBlock_monitor_timeout (env : GitHubEnv)
    (wid branchName : String) (results : List (String × AgentTaskResult))
    (changes : List CodeChange) (tr : List WorkflowProgress) (cs : List GHCall)
    (hbranch : env.createBranch = GHResp.ok ())
    (hcommit : ∀ i, env.commitFile i = GHResp.ok ())
    (num : Nat) (url : String) (hpr : env.createPR = GHResp.ok (num, url))
    (hnum : num ≠ 0)
    (hmon : (monitorDeployment env.polls env.clock env.monitorStart wid).1 =
      Except.error "Deployment monitoring timeout") :
    ∃ tr', ghTryBlock env wid branchName results changes tr cs =
      Except.ok
        (some { success := developSuccess results
                changes := changes
                pullRequestUrl := some url
                summary := summaryOr results "Code modification complete" },
         tr',
         cs ++ [GHCall.createBranch] ++
           changes.map (fun ch => GHCall.commit ch.path) ++ [GHCall.createPR]) := by
  unfold ghTryBlock
  rw [hbranch]
  dsimp only
  obtain ⟨trc, hcl⟩ := commitLoop_all_ok env wid changes.length hcommit changes 0
    (tr ++
      [{ workflowId := wid, stepId := "create-branch", agentId := "system"
         status := .completed, progress := 45
         message := "✅ Branch created: " ++ branchName },
       { workflowId := wid, stepId := "commit-files", agentId := "system"
         status := .running, progress := 45
         message := "📝 Committing " ++ toString changes.length ++ " file(s)..." }])
    (cs ++ [GHCall.createBranch])
  rw [hcl, hpr]
  dsimp only
  rw [if_pos hnum]
  have hpair : monitorDeployment env.polls env.clock env.monitorStart wid =
      (Except.error "Deployment monitoring timeout",
       (monitorDeployment env.polls env.clock env.monitorStart wid).2) := by
    rw [← hmon]
  rw [hpair]
  dsimp only
  refine ⟨_, rfl⟩

/-- C5 as amended: when the GitHub config is present, the develop payload
parses into changes, branch creation, every commit and the pull-request
creation succeed, and the deployment monitor throws its timeout error,
`executeGitHubWorkflow` returns the develop-stage success flag (not a
forced `false`), a populated `pullRequestUrl`, no `deploymentResult`, and
never calls `mergePR`. -/
theorem C5_monitor_timeout_result (env : GitHubEnv)
    (repoUrl requirements : String) (hcfg : env.hasConfig = true)
    (hbranch : env.createBranch = GHResp.ok ())
    (hcommit : ∀ i, env.commitFile i = GHResp.ok ())
    (num : Nat) (url : String) (hpr : env.createPR = GHResp.ok (num, url))
    (hnum : num ≠ 0)
    (hmon : (monitorDeployment env.polls env.clock env.monitorStart
      (ghWorkflowId env)).1 = Except.error "Deployment monitoring timeout")
    (hch : ghChanges env repoUrl requirements ≠ []) :
    (executeGitHubWorkflow env repoUrl requirements).1 =
      { success := developSuccess (ghResults env repoUrl requirements)
        changes := ghChanges env repoUrl requirements
        pullRequestUrl := some url
        summary := summaryOr (ghResults env repoUrl requirements)
          "Code modification complete"
        deploymentResult := none } ∧
    GHCall.mergePR ∉ (executeGitHubWorkflow env repoUrl requirements).2.2 := by
  have htb := fun tr cs => ghTryBlock_monitor_timeout env (ghWorkflowId env)
    (ghBranchName env) (ghResults env repoUrl requirements)
    (ghChanges env repoUrl requirements) tr cs hbranch hcommit num url hpr hnum
    hmon
  unfold executeGitHubWorkflow
  dsimp only
  rw [hcfg]
  rw [if_pos (show (true = true) ∧ ghChanges env repoUrl requirements ≠ [] from
    ⟨rfl, hch⟩)]
  obtain ⟨tr', heq⟩ := htb _ _
  rw [heq]
  dsimp only
  refine ⟨rfl, ?_⟩
  intro hmem
  rcases List.mem_append.mp hmem with h1 | h1
  · rcases List.mem_append.mp h1 with h2 | h2
    · rcases List.mem_append.mp h2 with h3 | h3
      · revert h3
        cases env.fetchFiles <;> simp
      · simp at h3
    · rcases List.mem_map.mp h2 with ⟨ch, _, hch2⟩
      simp at hch2
  · simp at h1

/-- C5 counterexample: in the concrete scenario where the config is
present, the develop stage succeeds with a parseable payload, branch,
commits and pull request all succeed, and the monitor times out,
`executeGitHubWorkflow` returns `success = true` (the develop-stage flag),
not the `success = false` the claim states; the pull-request URL is
populated and no merge is attempted. -/
theorem C5_counterexample :
    (executeGitHubWorkflow exEnvC5 "https://github.com/o/r" "req").1.success =
      true ∧
    (executeGitHubWorkflow exEnvC5 "https://github.com/o/r" "req").1.pullRequestUrl =
      some "https://github.com/o/r/pull/7" ∧
    (executeGitHubWorkflow exEnvC5 "https://github.com/o/r" "req").1.deploymentResult =
      none ∧
    GHCall.mergePR ∉ (executeGitHubWorkflow exEnvC5 "https://github.com/o/r" "req").2.2 := by
  refine ⟨by decide, by decide, by decide, by decide⟩

/-- Witness for C5 (amended) on the concrete timeout scenario. -/
theorem C5_witness :
    (executeGitHubWorkflow exEnvC5 "https://github.com/o/r" "req").1 =
      { success := developSuccess (ghResults exEnvC5 "https://github.com/o/r" "req")
        changes := ghChanges exEnvC5 "https://github.com/o/r" "req"
        pullRequestUrl := some "https://github.com/o/r/pull/7"
        summary := summaryOr (ghResults exEnvC5 "https://github.com/o/r" "req")
          "Code modification complete"
        deploymentResult := none } ∧
    GHCall.mergePR ∉ (executeGitHubWorkflow exEnvC5 "https://github.com/o/r" "req").2.2 :=
  C5_monitor_timeout_result exEnvC5 "https://github.com/o/r" "req" rfl rfl
    (fun _ => rfl) 7 "https://github.com/o/r/pull/7" rfl (by decide) (by rfl)
    (by decide)

end Orchestrator
